import Mathlib

/-!
# Verification of the `shacl-rs` SHACL engine against its specification

Shallow embedding of the data model and the operations of the `shacl-rs`
repository (`src/lib/src/...`).  RDF terms, shapes, targets and property
paths are translated from `types.rs` and `shape.rs`; the cardinality
validators from `components/cardinality.rs`; the optimiser pass from
`optimize.rs`; the report builder from `report.rs`; and the SPARQL
pre-binding analysis and SPARQL-based validators from
`runtime/validators/sparql.rs`.

The RDF store and the SPARQL engine are external collaborators of the
engine (spec §1); where a function of the repository consults them we
embed the specified answer of the engine for the concrete query the code
issues (a single triple pattern), or take the engine as an explicit
oracle parameter when the query's semantics is not itself under test.
-/

namespace ShaclRs

/-! ## RDF terms (model of `oxigraph::model::Term`) -/

/-- A literal: lexical value, datatype IRI and optional language tag. -/
structure LiteralT where
  value : String
  datatype : String
  lang : Option String
deriving DecidableEq, Repr

/-- An RDF term: IRI, blank node, or literal. -/
inductive Term where
  | namedNode : String → Term
  | blankNode : String → Term
  | literal : LiteralT → Term
deriving DecidableEq, Repr

/-- Whether a term is an IRI (`Term::NamedNode`). -/
def Term.isNamedNode : Term → Bool
  | .namedNode _ => true
  | _ => false

/-- A triple of a (data or report) graph. -/
structure TripleT where
  subj : Term
  pred : Term
  obj : Term
deriving DecidableEq, Repr

/-- A quad of the store: a triple inside a named graph. -/
structure QuadT where
  subj : Term
  pred : Term
  obj : Term
  graph : String
deriving DecidableEq, Repr

/-! ## Vocabulary constants used by the embedded code -/

def xsdBoolean : String := "http://www.w3.org/2001/XMLSchema#boolean"
def xsdString : String := "http://www.w3.org/2001/XMLSchema#string"

def rdfType : Term := .namedNode "http://www.w3.org/1999/02/22-rdf-syntax-ns#type"
def rdfFirst : Term := .namedNode "http://www.w3.org/1999/02/22-rdf-syntax-ns#first"
def rdfRest : Term := .namedNode "http://www.w3.org/1999/02/22-rdf-syntax-ns#rest"
def rdfNil : Term := .namedNode "http://www.w3.org/1999/02/22-rdf-syntax-ns#nil"

def shValidationReport : Term := .namedNode "http://www.w3.org/ns/shacl#ValidationReport"
def shValidationResult : Term := .namedNode "http://www.w3.org/ns/shacl#ValidationResult"
def shConforms : Term := .namedNode "http://www.w3.org/ns/shacl#conforms"
def shResult : Term := .namedNode "http://www.w3.org/ns/shacl#result"
def shFocusNode : Term := .namedNode "http://www.w3.org/ns/shacl#focusNode"
def shResultMessage : Term := .namedNode "http://www.w3.org/ns/shacl#resultMessage"
def shResultSeverity : Term := .namedNode "http://www.w3.org/ns/shacl#resultSeverity"
def shSourceShape : Term := .namedNode "http://www.w3.org/ns/shacl#sourceShape"
def shResultPath : Term := .namedNode "http://www.w3.org/ns/shacl#resultPath"
def shSourceConstraintComponent : Term :=
  .namedNode "http://www.w3.org/ns/shacl#sourceConstraintComponent"
def shViolation : Term := .namedNode "http://www.w3.org/ns/shacl#Violation"
def shWarning : Term := .namedNode "http://www.w3.org/ns/shacl#Warning"
def shInversePath : Term := .namedNode "http://www.w3.org/ns/shacl#inversePath"
def shAlternativePath : Term := .namedNode "http://www.w3.org/ns/shacl#alternativePath"
def shZeroOrMorePath : Term := .namedNode "http://www.w3.org/ns/shacl#zeroOrMorePath"
def shOneOrMorePath : Term := .namedNode "http://www.w3.org/ns/shacl#oneOrMorePath"
def shZeroOrOnePath : Term := .namedNode "http://www.w3.org/ns/shacl#zeroOrOnePath"
def shDeactivated : Term := .namedNode "http://www.w3.org/ns/shacl#deactivated"
def shSelect : Term := .namedNode "http://www.w3.org/ns/shacl#select"
def shMessage : Term := .namedNode "http://www.w3.org/ns/shacl#message"

/-- Model of `oxigraph` `Literal::from(bool)`: a `"true"`/`"false"` literal of
datatype `xsd:boolean`. -/
def litBool (b : Bool) : Term :=
  .literal ⟨if b then "true" else "false", xsdBoolean, none⟩

/-- Model of `Literal::new_simple_literal`: an `xsd:string` literal without language. -/
def simpleLit (s : String) : Term := .literal ⟨s, xsdString, none⟩

/-! ## Identifier handles (`types.rs`) -/

/-- Model of `ID` — handle of a node shape (`pub struct ID(pub u64)`). -/
abbrev ID := Nat

/-- Model of `PropShapeID` — handle of a property shape. -/
abbrev PropShapeID := Nat

/-- Model of `ComponentID` — handle of a constraint component. -/
abbrev ComponentID := Nat

/-! ## Paths (`types.rs`, `enum Path`) -/

/-- Model of `Path` — a SHACL property path, mirroring `types.rs`. -/
inductive Path where
  | Simple : Term → Path
  | Inverse : Path → Path
  | Sequence : List Path → Path
  | Alternative : List Path → Path
  | ZeroOrMore : Path → Path
  | OneOrMore : Path → Path
  | ZeroOrOne : Path → Path
deriving Repr

/-- Model of `Path::format_named_node_for_sparql`. -/
def formatNamedNodeForSparql (nn : String) : String := "<" ++ nn ++ ">"

mutual

/-- Model of `Path::to_sparql_path` — the SPARQL 1.1 property-path rendering of a
`Path` (`types.rs` lines 116-175).  Sequences and alternatives of fewer
than two members are an error; both are always parenthesised. -/
def Path.toSparqlPath : Path → Except String String
  | .Simple t =>
    match t with
    | .namedNode nn => .ok (formatNamedNodeForSparql nn)
    | _ => .error "Simple path must be an IRI"
  | .Inverse inner => do
    let innerSparql ← inner.toSparqlPath
    .ok ("^" ++ innerSparql)
  | .Sequence paths =>
    if paths.length < 2 then
      .error ("Sequence path must have at least two elements, found "
        ++ toString paths.length)
    else do
      let sparqlPaths ← Path.toSparqlPathList paths
      .ok ("(" ++ String.intercalate " / " sparqlPaths ++ ")")
  | .Alternative paths =>
    if paths.length < 2 then
      .error ("Alternative path must have at least two elements, found "
        ++ toString paths.length)
    else do
      let sparqlPaths ← Path.toSparqlPathList paths
      .ok ("(" ++ String.intercalate " | " sparqlPaths ++ ")")
  | .ZeroOrMore inner => do
    let innerSparql ← inner.toSparqlPath
    .ok (innerSparql ++ "*")
  | .OneOrMore inner => do
    let innerSparql ← inner.toSparqlPath
    .ok (innerSparql ++ "+")
  | .ZeroOrOne inner => do
    let innerSparql ← inner.toSparqlPath
    .ok (innerSparql ++ "?")

/-- The `for p in paths { sparql_paths.push(p.to_sparql_path()?) }` loop of
`to_sparql_path`, rendering each member in order. -/
def Path.toSparqlPathList : List Path → Except String (List String)
  | [] => .ok []
  | p :: ps => do
    let r ← p.toSparqlPath
    let rs ← Path.toSparqlPathList ps
    .ok (r :: rs)

end

/-! ## Execution trace and validation context

`context.rs` is not part of the sources at hand; the `Context`,
`SourceShape` and `TraceItem` carriers are reconstructed from their uses
in `types.rs`, `report.rs` and `runtime/validators/sparql.rs` and from
spec §3 ("Context (per validation frame):
`{ focus_node, path?, value_nodes?, source_shape, execution_trace }`;
the trace is an append-only list of
`TraceItem::{NodeShape|PropertyShape|Component}` handles"). -/

/-- Model of `TraceItem` — one entry of the execution trace (spec §3, used by
`report.rs`). -/
inductive TraceItem where
  | NodeShape : ID → TraceItem
  | PropertyShape : PropShapeID → TraceItem
  | Component : ComponentID → TraceItem
deriving DecidableEq, Repr

/-- Model of `SourceShape` — the shape a context descends from (constructed as
`SourceShape::NodeShape(id)` in `types.rs`; `as_prop_id`/`as_node_id`
accessors used in `sparql.rs`). -/
inductive SourceShape where
  | NodeShape : ID → SourceShape
  | PropertyShape : PropShapeID → SourceShape
deriving DecidableEq, Repr

/-- Model of `SourceShape::as_prop_id`. -/
def SourceShape.asPropId : SourceShape → Option PropShapeID
  | .PropertyShape id => some id
  | _ => none

/-- Model of `SourceShape::as_node_id`. -/
def SourceShape.asNodeId : SourceShape → Option ID
  | .NodeShape id => some id
  | _ => none

/-- Model of `Context` — one validation frame (spec §3).  `Context::new` in
`types.rs` receives focus node, optional path, optional value nodes and
source shape; the execution trace starts empty and grows as the driver
descends. -/
structure Context where
  focus_node : Term
  path : Option Path
  value_nodes : Option (List Term)
  source_shape : SourceShape
  execution_trace : List TraceItem
deriving Repr

/-- Model of `Context::new(focus, path, value_nodes, source_shape)`. -/
def Context.new (focus : Term) (path : Option Path)
    (valueNodes : Option (List Term)) (source : SourceShape) : Context :=
  ⟨focus, path, valueNodes, source, []⟩

/-! ## Shapes (`shape.rs`) -/

/-- Model of `Target` — mirror of `types.rs` `enum Target`. -/
inductive Target where
  | Class : Term → Target
  | Node : Term → Target
  | SubjectsOf : Term → Target
  | ObjectsOf : Term → Target
deriving DecidableEq, Repr

/-- Model of `PropertyShape` (`shape.rs`). -/
structure PropertyShape where
  identifier : PropShapeID
  path : Path
  constraints : List ComponentID
deriving Repr

/-- Model of `NodeShape` (`shape.rs`). -/
structure NodeShape where
  identifier : ID
  targets : List Target
  property_shapes : List ID
  constraints : List ComponentID
deriving Repr

/-! ## Target resolution (`types.rs`, `Target::get_target_nodes`)

The data graph is modelled as its list of triples.  The code compiles
`SubjectsOf`/`ObjectsOf` to the SPARQL query
`SELECT DISTINCT ?s WHERE { ?s <p> ?any . }` (resp. the object-position
variant) over the data graph as union default graph; the SPARQL engine
is an external collaborator assumed to implement SPARQL 1.1 (spec §1),
so its answer to this single-triple-pattern query is embedded directly:
the deduplicated subjects (objects) of the triples whose predicate is
`p`.  The `rdf:type/rdfs:subClassOf*` query issued for `Class` targets
involves property-path evaluation, which stays inside the external
engine: its answer is the `classInstances` oracle parameter. -/

/-- The engine's answer to `SELECT DISTINCT ?s WHERE { ?s <p> ?any . }`. -/
def sparqlDistinctSubjects (g : List TripleT) (p : String) : List Term :=
  ((g.filter (fun t => t.pred == Term.namedNode p)).map (·.subj)).dedup

/-- The engine's answer to `SELECT DISTINCT ?o WHERE { ?any <p> ?o . }`. -/
def sparqlDistinctObjects (g : List TripleT) (p : String) : List Term :=
  ((g.filter (fun t => t.pred == Term.namedNode p)).map (·.obj)).dedup

/-- How many SPARQL queries `Target::get_target_nodes` issues for each
target kind: `Node(t)` returns its singleton directly, every other kind
runs one SELECT against the store. -/
def Target.queriesIssued : Target → Nat
  | .Node _ => 0
  | _ => 1

/-- Model of `Target::get_target_nodes` (`types.rs` lines 247-404).
`classInstances` is the external engine's answer to the
`rdf:type/rdfs:subClassOf*` instance query for a `Class` target. -/
def Target.getTargetNodes (g : List TripleT) (classInstances : Term → List Term)
    (sourceShapeId : ID) : Target → Except String (List Context)
  | .Node t =>
    .ok [Context.new t none (some [t]) (.NodeShape sourceShapeId)]
  | .Class c =>
    .ok ((classInstances c).map (fun inst =>
      Context.new inst none (some [inst]) (.NodeShape sourceShapeId)))
  | .SubjectsOf p =>
    match p with
    | .namedNode predicateNode =>
      .ok ((sparqlDistinctSubjects g predicateNode).map (fun s =>
        Context.new s none (some [s]) (.NodeShape sourceShapeId)))
    | _ => .ok []  -- Predicate for SubjectsOf must be an IRI
  | .ObjectsOf p =>
    match p with
    | .namedNode predicateNode =>
      .ok ((sparqlDistinctObjects g predicateNode).map (fun o =>
        Context.new o none (some [o]) (.NodeShape sourceShapeId)))
    | _ => .ok []  -- Predicate for ObjectsOf must be an IRI

/-! ## Optimiser (`optimize.rs`)

`remove_unreachable_targets` first runs
`SELECT DISTINCT ?type WHERE { ?s rdf:type/rdfs:subClassOf* ?type . }`
against the data graph (external engine; its answer is the `types`
parameter) and then retains, in every node shape, exactly the targets
that are not a `Class` target of an absent class, incrementing
`stats.unreachable_targets_removed` by the number dropped per shape. -/

/-- Statistics of the optimiser (`OptimizerStats`). -/
structure OptimizerStats where
  unreachable_targets_removed : Nat
deriving DecidableEq, Repr

/-- The predicate of the `retain` call in `remove_unreachable_targets`:
keep a `Class` target iff its class occurs among the used types, keep
every other target kind. -/
def keepTarget (types : List Term) : Target → Bool
  | .Class classTerm => types.contains classTerm
  | _ => true

/-- The per-shape body of the `for shape in node_shapes` loop of
`remove_unreachable_targets`: filter the targets and report how many
were removed. -/
def removeUnreachableTargetsShape (types : List Term) (s : NodeShape) :
    NodeShape × Nat :=
  let targetsBefore := s.targets.length
  let kept := s.targets.filter (keepTarget types)
  ({ s with targets := kept }, targetsBefore - kept.length)

/-- Model of `Optimizer::remove_unreachable_targets` (`optimize.rs` lines 55-97),
acting on the list of node shapes and the running stats. -/
def removeUnreachableTargets (types : List Term) (shapes : List NodeShape)
    (stats : OptimizerStats) : List NodeShape × OptimizerStats :=
  match shapes with
  | [] => ([], stats)
  | s :: rest =>
    let (s', removed) := removeUnreachableTargetsShape types s
    let (rest', stats') := removeUnreachableTargets types rest
      ⟨stats.unreachable_targets_removed + removed⟩
    (s' :: rest', stats')

/-! ## Cardinality components (`components/cardinality.rs`) -/

/-- Model of `ValidationFailure` (from `crate::runtime`, reconstructed from its
construction sites in `sparql.rs`). -/
structure ValidationFailure where
  component_id : ComponentID
  failed_value_node : Option Term
  message : String
  result_path : Option Path
  source_constraint : Option Term
deriving Repr

/-- Model of `ComponentValidationResult` — `Pass` or `Fail(ctx, failure)`. -/
inductive ComponentValidationResult where
  | Pass : ComponentID → ComponentValidationResult
  | Fail : Context → ValidationFailure → ComponentValidationResult
deriving Repr

/-- Model of `MinCountConstraintComponent`. -/
structure MinCountConstraintComponent where
  min_count : Nat
deriving DecidableEq, Repr

/-- The value-node count used by both cardinality validators:
`c.value_nodes().map_or(0, |v| v.len())`. -/
def contextValueCount (c : Context) : Nat :=
  (c.value_nodes.map (·.length)).getD 0

/-- Model of `MinCountConstraintComponent::validate`
(`components/cardinality.rs` lines 25-41). -/
def MinCountConstraintComponent.validate (self : MinCountConstraintComponent)
    (componentId : ComponentID) (c : Context) :
    Except String ComponentValidationResult :=
  if contextValueCount c < self.min_count then
    .error ("Value count (" ++ toString (contextValueCount c)
      ++ ") does not meet minimum requirement: " ++ toString self.min_count)
  else
    .ok (.Pass componentId)

/-- Model of `MaxCountConstraintComponent`. -/
structure MaxCountConstraintComponent where
  max_count : Nat
deriving DecidableEq, Repr

/-- Model of `MaxCountConstraintComponent::validate`
(`components/cardinality.rs` lines 62-78). -/
def MaxCountConstraintComponent.validate (self : MaxCountConstraintComponent)
    (componentId : ComponentID) (c : Context) :
    Except String ComponentValidationResult :=
  if contextValueCount c > self.max_count then
    .error ("Value count (" ++ toString (contextValueCount c)
      ++ ") does not meet maximum requirement: " ++ toString self.max_count)
  else
    .ok (.Pass componentId)

/-! ## Report builder (`report.rs`)

`ValidationReportBuilder` stores the recorded failures as
`(Context, String)` pairs; `to_graph` assembles the RDF report graph.
`BlankNode::default()` mints a globally fresh blank node on every call;
freshness is embedded by threading a counter and naming the `k`-th
minted node `_:bk`.  The graph is a set of triples; since every inserted
triple involves a freshly minted blank node or distinct fixed
predicates, insertion never hits a duplicate and the graph is embedded
as the list of inserted triples. -/

/-- The blank node minted by the `n`-th call of `BlankNode::default()`. -/
def freshBNode (n : Nat) : Term := .blankNode ("b" ++ toString n)

/-- Model of `ValidationReportBuilder` (`report.rs`): the recorded
`(context, error-message)` pairs. -/
structure ValidationReportBuilder where
  results : List (Context × String)

/-- Model of `ValidationReportBuilder::new`. -/
def ValidationReportBuilder.new : ValidationReportBuilder := ⟨[]⟩

/-- Model of `ValidationReportBuilder::add_error`. -/
def ValidationReportBuilder.addError (b : ValidationReportBuilder)
    (c : Context) (e : String) : ValidationReportBuilder :=
  ⟨b.results ++ [(c, e)]⟩

/-- The intern-table lookups of `ValidationContext` that `to_graph`
consults (`nodeshape_id_lookup`, `propshape_id_lookup`,
`component_id_lookup`, `get_prop_shape_by_id`). -/
structure ValidationContextM where
  nodeshapeTerm : ID → Option Term
  propshapeTerm : PropShapeID → Option Term
  componentTerm : ComponentID → Option Term
  propShapeById : PropShapeID → Option PropertyShape

/-- Model of `build_rdf_list`: the `rdf:first`/`rdf:rest` cells linking `items`,
with cell `i` named from counter `n + i`. -/
def rdfListCells : List Term → Nat → List TripleT
  | [], _ => []
  | x :: rest, n =>
    let cell := freshBNode n
    let restTerm := if rest.isEmpty then rdfNil else freshBNode (n + 1)
    ⟨cell, rdfFirst, x⟩ :: ⟨cell, rdfRest, restTerm⟩ :: rdfListCells rest (n + 1)

/-- Model of `build_rdf_list` (`report.rs` lines 253-279): empty list of items is
`rdf:nil`; otherwise a fresh cell per item. -/
def buildRdfList (items : List Term) (g : List TripleT) (n : Nat) :
    Term × List TripleT × Nat :=
  if items.isEmpty then (rdfNil, g, n)
  else (freshBNode n, g ++ rdfListCells items n, n + items.length)

mutual

/-- Model of `path_to_rdf` (`report.rs` lines 202-251): serialise a `Path` back
into RDF, inserting helper triples into the graph and returning the term
that denotes the path. -/
def pathToRdf : Path → List TripleT → Nat → Term × List TripleT × Nat
  | .Simple t, g, n => (t, g, n)
  | .Inverse inner, g, n =>
    let bn := freshBNode n
    let (innerTerm, g1, n1) := pathToRdf inner g (n + 1)
    (bn, g1 ++ [⟨bn, shInversePath, innerTerm⟩], n1)
  | .Sequence paths, g, n =>
    let (items, g1, n1) := pathListToRdf paths g n
    buildRdfList items g1 n1
  | .Alternative paths, g, n =>
    let bn := freshBNode n
    let (items, g1, n1) := pathListToRdf paths g (n + 1)
    let (listHead, g2, n2) := buildRdfList items g1 n1
    (bn, g2 ++ [⟨bn, shAlternativePath, listHead⟩], n2)
  | .ZeroOrMore inner, g, n =>
    let bn := freshBNode n
    let (innerTerm, g1, n1) := pathToRdf inner g (n + 1)
    (bn, g1 ++ [⟨bn, shZeroOrMorePath, innerTerm⟩], n1)
  | .OneOrMore inner, g, n =>
    let bn := freshBNode n
    let (innerTerm, g1, n1) := pathToRdf inner g (n + 1)
    (bn, g1 ++ [⟨bn, shOneOrMorePath, innerTerm⟩], n1)
  | .ZeroOrOne inner, g, n =>
    let bn := freshBNode n
    let (innerTerm, g1, n1) := pathToRdf inner g (n + 1)
    (bn, g1 ++ [⟨bn, shZeroOrOnePath, innerTerm⟩], n1)

/-- The `paths.iter().map(|p| path_to_rdf(p, graph)).collect()` step of
`path_to_rdf` for sequences and alternatives. -/
def pathListToRdf : List Path → List TripleT → Nat → List Term × List TripleT × Nat
  | [], g, n => ([], g, n)
  | p :: ps, g, n =>
    let (t, g1, n1) := pathToRdf p g n
    let (ts, g2, n2) := pathListToRdf ps g1 n1
    (t :: ts, g2, n2)

end

/-- Accumulator of the `for item in context.execution_trace().iter().rev()`
loop of `to_graph` (`report.rs` lines 87-127). -/
structure TraceAcc where
  sourceShapeTerm : Option Term
  resultPathTerm : Option Term
  sourceConstraintComponentTerm : Option Term
  g : List TripleT
  n : Nat

/-- One step of the trace-extraction loop of `to_graph`. -/
def traceStep (vctx : ValidationContextM) (acc : TraceAcc) :
    TraceItem → TraceAcc
  | .NodeShape id =>
    if acc.sourceShapeTerm.isNone then
      { acc with sourceShapeTerm := vctx.nodeshapeTerm id }
    else acc
  | .PropertyShape id =>
    if acc.sourceShapeTerm.isNone then
      let acc := { acc with sourceShapeTerm := vctx.propshapeTerm id }
      match vctx.propShapeById id with
      | some shape =>
        if acc.resultPathTerm.isNone then
          let (pt, g', n') := pathToRdf shape.path acc.g acc.n
          { acc with resultPathTerm := some pt, g := g', n := n' }
        else acc
      | none => acc
    else acc
  | .Component id =>
    if acc.sourceConstraintComponentTerm.isNone then
      { acc with sourceConstraintComponentTerm := vctx.componentTerm id }
    else acc

/-- The trace-extraction loop of `to_graph`, over the reversed trace. -/
def traceFold (vctx : ValidationContextM) (trace : List TraceItem)
    (g : List TripleT) (n : Nat) : TraceAcc :=
  trace.reverse.foldl (traceStep vctx) ⟨none, none, none, g, n⟩

/-- The per-failure body of the `for (context, error_message)` loop of
`to_graph` (`report.rs` lines 51-166): link a fresh result node, type
it, emit focus node, message, the trace-derived source shape, result
path and source constraint component, and the (hard-coded)
`sh:resultSeverity sh:Violation` triple. -/
def emitResult (vctx : ValidationContextM) (reportNode : Term) (ctx : Context)
    (errorMessage : String) (g : List TripleT) (n : Nat) :
    List TripleT × Nat :=
  let resultNode := freshBNode n
  let g := g ++ [⟨reportNode, shResult, resultNode⟩,
    ⟨resultNode, rdfType, shValidationResult⟩,
    ⟨resultNode, shFocusNode, ctx.focus_node⟩,
    ⟨resultNode, shResultMessage, simpleLit errorMessage⟩]
  let acc := traceFold vctx ctx.execution_trace g (n + 1)
  let g := acc.g
  let g := match acc.sourceShapeTerm with
    | some t => g ++ [⟨resultNode, shSourceShape, t⟩]
    | none => g
  let g := match acc.resultPathTerm with
    | some t => g ++ [⟨resultNode, shResultPath, t⟩]
    | none => g
  let g := g ++ [⟨resultNode, shResultSeverity, shViolation⟩]
  let g := match acc.sourceConstraintComponentTerm with
    | some t => g ++ [⟨resultNode, shSourceConstraintComponent, t⟩]
    | none => g
  (g, acc.n)

/-- The `for (context, error_message) in &self.results` loop of
`to_graph`. -/
def emitResults (vctx : ValidationContextM) (reportNode : Term) :
    List (Context × String) → List TripleT → Nat → List TripleT × Nat
  | [], g, n => (g, n)
  | (ctx, msg) :: rest, g, n =>
    let (g1, n1) := emitResult vctx reportNode ctx msg g n
    emitResults vctx reportNode rest g1 n1

/-- Model of `ValidationReportBuilder::to_graph` (`report.rs` lines 29-170). -/
def ValidationReportBuilder.toGraph (b : ValidationReportBuilder)
    (vctx : ValidationContextM) : List TripleT :=
  let reportNode := freshBNode 0
  let g : List TripleT := [⟨reportNode, rdfType, shValidationReport⟩]
  let conformsB := b.results.isEmpty
  let g := g ++ [⟨reportNode, shConforms, litBool conformsB⟩]
  if conformsB then g
  else (emitResults vctx reportNode b.results g 1).1

/-- Modelled from the spec: `ValidationReport::conforms`.  The
`ValidationReport` wrapper around the builder (re-exported by `lib.rs`)
is not among the sources at hand; per spec §6/§7 ("`conforms() -> bool`",
"`conforms()` is true iff no failures (of any severity)") it reports
whether the builder recorded no failures. -/
def ValidationReportBuilder.conforms (b : ValidationReportBuilder) : Bool :=
  b.results.isEmpty

/-- Whether a report graph contains a `sh:conforms true` triple. -/
def hasConformsTrue (g : List TripleT) : Bool :=
  g.any (fun tr => tr.pred == shConforms && tr.obj == litBool true)

/-- The number of `sh:ValidationResult` typing triples of a report graph. -/
def countValidationResults (g : List TripleT) : Nat :=
  g.countP (fun tr => tr.pred == rdfType && tr.obj == shValidationResult)

/-! ## SPARQL algebra and the pre-binding semantics check
(`runtime/validators/sparql.rs` lines 165-370)

The query algebra produced by `spargebra` is mirrored with the
constructors and the recursive structure that
`ensure_pre_binding_semantics` / `check_graph_pattern` /
`check_expression` / `check_order_expression` /
`check_aggregate_expression` inspect.  Payload the checks never look at
(triple patterns of a BGP, the bindings of a VALUES, the service name)
is kept minimal.  Variables are their names. -/

mutual

/-- Model of `spargebra::algebra::GraphPattern`. -/
inductive GraphPattern where
  | Bgp : GraphPattern
  | Path : GraphPattern
  | Join : GraphPattern → GraphPattern → GraphPattern
  | LeftJoin : GraphPattern → GraphPattern → Option Expression → GraphPattern
  | Lateral : GraphPattern → GraphPattern → GraphPattern
  | Filter : Expression → GraphPattern → GraphPattern
  | Union : GraphPattern → GraphPattern → GraphPattern
  | Graph : String → GraphPattern → GraphPattern
  | Extend : GraphPattern → String → Expression → GraphPattern
  | Minus : GraphPattern → GraphPattern → GraphPattern
  | Values : List String → GraphPattern
  | OrderBy : GraphPattern → List OrderExpression → GraphPattern
  | Project : GraphPattern → List String → GraphPattern
  | Distinct : GraphPattern → GraphPattern
  | Reduced : GraphPattern → GraphPattern
  | Slice : GraphPattern → Nat → Option Nat → GraphPattern
  | Group : GraphPattern → List String → List (String × AggregateExpression) → GraphPattern
  | Service : String → GraphPattern → Bool → GraphPattern

/-- Model of `spargebra::algebra::Expression`. -/
inductive Expression where
  | NamedNode : String → Expression
  | Literal : LiteralT → Expression
  | Variable : String → Expression
  | UnaryPlus : Expression → Expression
  | UnaryMinus : Expression → Expression
  | Not : Expression → Expression
  | Or : Expression → Expression → Expression
  | And : Expression → Expression → Expression
  | Equal : Expression → Expression → Expression
  | SameTerm : Expression → Expression → Expression
  | Greater : Expression → Expression → Expression
  | GreaterOrEqual : Expression → Expression → Expression
  | Less : Expression → Expression → Expression
  | LessOrEqual : Expression → Expression → Expression
  | Add : Expression → Expression → Expression
  | Subtract : Expression → Expression → Expression
  | Multiply : Expression → Expression → Expression
  | Divide : Expression → Expression → Expression
  | In : Expression → List Expression → Expression
  | FunctionCall : String → List Expression → Expression
  | If : Expression → Expression → Expression → Expression
  | Coalesce : List Expression → Expression
  | Exists : GraphPattern → Expression
  | Bound : String → Expression

/-- Model of `spargebra::algebra::OrderExpression`. -/
inductive OrderExpression where
  | Asc : Expression → OrderExpression
  | Desc : Expression → OrderExpression

/-- Model of `spargebra::algebra::AggregateExpression`. -/
inductive AggregateExpression where
  | CountSolutions : Bool → AggregateExpression
  | FunctionCall : String → Expression → Bool → AggregateExpression

end

/-- Model of `spargebra::Query` — the four query forms, each carrying its
graph pattern. -/
inductive AlgebraQuery where
  | Select : GraphPattern → AlgebraQuery
  | Ask : GraphPattern → AlgebraQuery
  | Construct : GraphPattern → AlgebraQuery
  | Describe : GraphPattern → AlgebraQuery

mutual

/-- Model of `check_graph_pattern` (`sparql.rs` lines 181-286). -/
def checkGraphPattern (pattern : GraphPattern) (contextLabel : String)
    (prebound : List String) (opt : List String) (isRoot : Bool) :
    Except String Unit :=
  match pattern with
  | .Bgp => .ok ()
  | .Path => .ok ()
  | .Join left right => do
    checkGraphPattern left contextLabel prebound opt false
    checkGraphPattern right contextLabel prebound opt false
  | .Union left right => do
    checkGraphPattern left contextLabel prebound opt false
    checkGraphPattern right contextLabel prebound opt false
  | .Lateral left right => do
    checkGraphPattern left contextLabel prebound opt false
    checkGraphPattern right contextLabel prebound opt false
  | .Graph _ inner =>
    -- Wrapper patterns around the root SELECT are not subqueries.
    checkGraphPattern inner contextLabel prebound opt isRoot
  | .Distinct inner =>
    checkGraphPattern inner contextLabel prebound opt isRoot
  | .Reduced inner =>
    checkGraphPattern inner contextLabel prebound opt isRoot
  | .Slice inner _ _ =>
    checkGraphPattern inner contextLabel prebound opt isRoot
  | .Filter expr inner => do
    checkExpression expr contextLabel prebound opt
    checkGraphPattern inner contextLabel prebound opt false
  | .LeftJoin left right expression => do
    checkGraphPattern left contextLabel prebound opt false
    checkGraphPattern right contextLabel prebound opt false
    match expression with
    | some expr => checkExpression expr contextLabel prebound opt
    | none => .ok ()
  | .Extend inner vname expression =>
    if prebound.contains vname then
      .error (contextLabel ++ " must not reassign the pre-bound variable ?"
        ++ vname ++ ".")
    else do
      checkExpression expression contextLabel prebound opt
      checkGraphPattern inner contextLabel prebound opt false
  | .Group inner _ aggregates => do
    checkAggregates aggregates contextLabel prebound opt
    checkGraphPattern inner contextLabel prebound opt false
  | .Project inner vars => do
    if !isRoot then
      checkProjectedPrebound prebound opt vars contextLabel
    else
      .ok ()
    checkGraphPattern inner contextLabel prebound opt false
  | .Values _ =>
    .error (contextLabel ++ " must not contain a VALUES clause.")
  | .Minus _ _ =>
    .error (contextLabel ++ " must not contain a MINUS clause.")
  | .Service _ _ _ =>
    .error (contextLabel ++ " must not contain a federated query (SERVICE).")
  | .OrderBy inner expression => do
    checkOrderExpressions expression contextLabel prebound opt
    -- ORDER BY wrapping the root query does not flip is_root
    checkGraphPattern inner contextLabel prebound opt isRoot

/-- The `for variable in prebound` loop of the non-root `Project` case:
every non-optional pre-bound variable must be projected. -/
def checkProjectedPrebound (prebound opt vars : List String)
    (contextLabel : String) : Except String Unit :=
  match prebound with
  | [] => .ok ()
  | v :: rest =>
    if opt.contains v then
      checkProjectedPrebound rest opt vars contextLabel
    else if !vars.contains v then
      .error (contextLabel ++ " subqueries must project the pre-bound variable ?"
        ++ v ++ ".")
    else
      checkProjectedPrebound rest opt vars contextLabel

/-- The `for (variable, aggregate) in aggregates` loop of the `Group`
case of `check_graph_pattern`. -/
def checkAggregates (aggregates : List (String × AggregateExpression))
    (contextLabel : String) (prebound : List String) (opt : List String) :
    Except String Unit :=
  match aggregates with
  | [] => .ok ()
  | (vname, aggregate) :: rest =>
    if prebound.contains vname then
      .error (contextLabel ++ " must not reassign the pre-bound variable ?"
        ++ vname ++ ".")
    else do
      checkAggregateExpression aggregate contextLabel prebound opt
      checkAggregates rest contextLabel prebound opt

/-- The `for expr in expression` loop of the `OrderBy` case. -/
def checkOrderExpressions (exprs : List OrderExpression)
    (contextLabel : String) (prebound : List String) (opt : List String) :
    Except String Unit :=
  match exprs with
  | [] => .ok ()
  | e :: rest => do
    checkOrderExpression e contextLabel prebound opt
    checkOrderExpressions rest contextLabel prebound opt

/-- Model of `check_order_expression` (`sparql.rs` lines 288-299). -/
def checkOrderExpression (order : OrderExpression) (contextLabel : String)
    (prebound : List String) (opt : List String) : Except String Unit :=
  match order with
  | .Asc expr => checkExpression expr contextLabel prebound opt
  | .Desc expr => checkExpression expr contextLabel prebound opt

/-- Model of `check_aggregate_expression` (`sparql.rs` lines 301-313). -/
def checkAggregateExpression (aggregate : AggregateExpression)
    (contextLabel : String) (prebound : List String) (opt : List String) :
    Except String Unit :=
  match aggregate with
  | .CountSolutions _ => .ok ()
  | .FunctionCall _ expr _ => checkExpression expr contextLabel prebound opt

/-- Model of `check_expression` (`sparql.rs` lines 315-370). -/
def checkExpression (expr : Expression) (contextLabel : String)
    (prebound : List String) (opt : List String) : Except String Unit :=
  match expr with
  | .NamedNode _ => .ok ()
  | .Literal _ => .ok ()
  | .Variable _ => .ok ()
  | .UnaryPlus inner => checkExpression inner contextLabel prebound opt
  | .UnaryMinus inner => checkExpression inner contextLabel prebound opt
  | .Not inner => checkExpression inner contextLabel prebound opt
  | .Or left right => do
    checkExpression left contextLabel prebound opt
    checkExpression right contextLabel prebound opt
  | .And left right => do
    checkExpression left contextLabel prebound opt
    checkExpression right contextLabel prebound opt
  | .Equal left right => do
    checkExpression left contextLabel prebound opt
    checkExpression right contextLabel prebound opt
  | .SameTerm left right => do
    checkExpression left contextLabel prebound opt
    checkExpression right contextLabel prebound opt
  | .Greater left right => do
    checkExpression left contextLabel prebound opt
    checkExpression right contextLabel prebound opt
  | .GreaterOrEqual left right => do
    checkExpression left contextLabel prebound opt
    checkExpression right contextLabel prebound opt
  | .Less left right => do
    checkExpression left contextLabel prebound opt
    checkExpression right contextLabel prebound opt
  | .LessOrEqual left right => do
    checkExpression left contextLabel prebound opt
    checkExpression right contextLabel prebound opt
  | .Add left right => do
    checkExpression left contextLabel prebound opt
    checkExpression right contextLabel prebound opt
  | .Subtract left right => do
    checkExpression left contextLabel prebound opt
    checkExpression right contextLabel prebound opt
  | .Multiply left right => do
    checkExpression left contextLabel prebound opt
    checkExpression right contextLabel prebound opt
  | .Divide left right => do
    checkExpression left contextLabel prebound opt
    checkExpression right contextLabel prebound opt
  | .In item items => do
    checkExpression item contextLabel prebound opt
    checkExpressionList items contextLabel prebound opt
  | .FunctionCall _ args =>
    checkExpressionList args contextLabel prebound opt
  | .If condition thenBranch elseBranch => do
    checkExpression condition contextLabel prebound opt
    checkExpression thenBranch contextLabel prebound opt
    checkExpression elseBranch contextLabel prebound opt
  | .Coalesce expressions =>
    checkExpressionList expressions contextLabel prebound opt
  | .Exists pattern =>
    checkGraphPattern pattern contextLabel prebound opt false
  | .Bound _ => .ok ()

/-- The argument loops of `check_expression` (`In`, `FunctionCall`,
`Coalesce`). -/
def checkExpressionList (exprs : List Expression) (contextLabel : String)
    (prebound : List String) (opt : List String) : Except String Unit :=
  match exprs with
  | [] => .ok ()
  | e :: rest => do
    checkExpression e contextLabel prebound opt
    checkExpressionList rest contextLabel prebound opt

end

/-- Model of `ensure_pre_binding_semantics` (`sparql.rs` lines 165-179). -/
def ensurePreBindingSemantics (query : AlgebraQuery) (contextLabel : String)
    (prebound : List String) (opt : List String) : Except String Unit :=
  match query with
  | .Select pattern => checkGraphPattern pattern contextLabel prebound opt true
  | .Ask pattern => checkGraphPattern pattern contextLabel prebound opt true
  | .Construct pattern => checkGraphPattern pattern contextLabel prebound opt true
  | .Describe pattern => checkGraphPattern pattern contextLabel prebound opt true

mutual

/-- Whether a graph pattern contains a `VALUES`, `MINUS` or `SERVICE`
clause anywhere, at any nesting depth (including inside `EXISTS`
expressions). -/
def patternHasForbidden : GraphPattern → Bool
  | .Bgp => false
  | .Path => false
  | .Join left right => patternHasForbidden left || patternHasForbidden right
  | .Union left right => patternHasForbidden left || patternHasForbidden right
  | .Lateral left right => patternHasForbidden left || patternHasForbidden right
  | .Graph _ inner => patternHasForbidden inner
  | .Distinct inner => patternHasForbidden inner
  | .Reduced inner => patternHasForbidden inner
  | .Slice inner _ _ => patternHasForbidden inner
  | .Filter expr inner => exprHasForbidden expr || patternHasForbidden inner
  | .LeftJoin left right expression =>
    patternHasForbidden left || patternHasForbidden right ||
      (match expression with
       | some e => exprHasForbidden e
       | none => false)
  | .Extend inner _ expression =>
    exprHasForbidden expression || patternHasForbidden inner
  | .Group inner _ aggregates =>
    aggregatesHaveForbidden aggregates || patternHasForbidden inner
  | .Project inner _ => patternHasForbidden inner
  | .Values _ => true
  | .Minus _ _ => true
  | .Service _ _ _ => true
  | .OrderBy inner exprs =>
    orderExpressionsHaveForbidden exprs || patternHasForbidden inner

/-- Model of `VALUES`/`MINUS`/`SERVICE` occurring inside an aggregate list. -/
def aggregatesHaveForbidden : List (String × AggregateExpression) → Bool
  | [] => false
  | (_, a) :: rest =>
    aggregateHasForbidden a || aggregatesHaveForbidden rest

/-- Model of `VALUES`/`MINUS`/`SERVICE` occurring inside one aggregate. -/
def aggregateHasForbidden : AggregateExpression → Bool
  | .CountSolutions _ => false
  | .FunctionCall _ expr _ => exprHasForbidden expr

/-- Model of `VALUES`/`MINUS`/`SERVICE` occurring inside an ORDER BY list. -/
def orderExpressionsHaveForbidden : List OrderExpression → Bool
  | [] => false
  | .Asc e :: rest => exprHasForbidden e || orderExpressionsHaveForbidden rest
  | .Desc e :: rest => exprHasForbidden e || orderExpressionsHaveForbidden rest

/-- Model of `VALUES`/`MINUS`/`SERVICE` occurring inside an expression (through
`EXISTS`). -/
def exprHasForbidden : Expression → Bool
  | .NamedNode _ => false
  | .Literal _ => false
  | .Variable _ => false
  | .UnaryPlus inner => exprHasForbidden inner
  | .UnaryMinus inner => exprHasForbidden inner
  | .Not inner => exprHasForbidden inner
  | .Or left right => exprHasForbidden left || exprHasForbidden right
  | .And left right => exprHasForbidden left || exprHasForbidden right
  | .Equal left right => exprHasForbidden left || exprHasForbidden right
  | .SameTerm left right => exprHasForbidden left || exprHasForbidden right
  | .Greater left right => exprHasForbidden left || exprHasForbidden right
  | .GreaterOrEqual left right => exprHasForbidden left || exprHasForbidden right
  | .Less left right => exprHasForbidden left || exprHasForbidden right
  | .LessOrEqual left right => exprHasForbidden left || exprHasForbidden right
  | .Add left right => exprHasForbidden left || exprHasForbidden right
  | .Subtract left right => exprHasForbidden left || exprHasForbidden right
  | .Multiply left right => exprHasForbidden left || exprHasForbidden right
  | .Divide left right => exprHasForbidden left || exprHasForbidden right
  | .In item items => exprHasForbidden item || exprListHasForbidden items
  | .FunctionCall _ args => exprListHasForbidden args
  | .If c t e =>
    exprHasForbidden c || exprHasForbidden t || exprHasForbidden e
  | .Coalesce exprs => exprListHasForbidden exprs
  | .Exists pattern => patternHasForbidden pattern
  | .Bound _ => false

/-- Model of `VALUES`/`MINUS`/`SERVICE` inside a list of expressions. -/
def exprListHasForbidden : List Expression → Bool
  | [] => false
  | e :: rest => exprHasForbidden e || exprListHasForbidden rest

end

/-- Whether the algebra of a query contains a `VALUES`, `MINUS` or
`SERVICE` clause anywhere. -/
def queryHasForbidden : AlgebraQuery → Bool
  | .Select pattern => patternHasForbidden pattern
  | .Ask pattern => patternHasForbidden pattern
  | .Construct pattern => patternHasForbidden pattern
  | .Describe pattern => patternHasForbidden pattern

/-! ## SPARQL-based validators (`runtime/validators/sparql.rs`)

A solution of a SELECT query is modelled as an association list from
variable names to terms (`solution.get`/`solution.variables()`).  The
SPARQL engine itself (parsing into `oxigraph::sparql::Query`, algebra
parsing by `spargebra`, and execution with substituted variables) is an
external collaborator (spec §1) and appears as an oracle record; all
control flow of `SPARQLConstraintComponent::validate` and
`CustomConstraintComponent::validate` around the oracle is embedded. -/

/-- A SPARQL solution: bindings of variable names to terms, in the
order the engine reports the variables. -/
abbrev Solution := List (String × Term)

/-- Model of `solution.get(name)`. -/
def solutionGet (sol : Solution) (name : String) : Option Term :=
  (sol.find? (fun p => p.1 == name)).map (·.2)

/-- The `?failure` probe of both SELECT loops: the solution binds
`failure` to a literal of datatype `xsd:boolean` with value `"true"`. -/
def failureSignalled (sol : Solution) : Bool :=
  match solutionGet sol "failure" with
  | some (.literal l) => l.datatype == xsdBoolean && l.value == "true"
  | _ => false

/-- Model of `query_mentions_var`'s boundary test: the character after the
variable name must not be ASCII alphanumeric or `_`. -/
def boundaryOk : List Char → Bool
  | [] => true
  | next :: _ => !(next.isAlphanum || next == '_')

/-- The scan of `query_mentions_var`'s inner `contains` helper
(`sparql.rs` lines 138-163) for one marker character. -/
def containsVarMarked (cs : List Char) (marker : Char) (var : List Char) : Bool :=
  match cs with
  | [] => false
  | c :: rest =>
    (c == marker && var.isPrefixOf rest && boundaryOk (rest.drop var.length))
      || containsVarMarked rest marker var

/-- Model of `query_mentions_var` (`sparql.rs` lines 138-163): the query text
mentions `?var` or `$var` at a word boundary. -/
def queryMentionsVar (query : String) (var : String) : Bool :=
  containsVarMarked query.data '?' var.data
    || containsVarMarked query.data '$' var.data

/-- Model of `term.to_string()` of `oxigraph`, as used for `{?var}` message
substitution (N-Triples style rendering). -/
def termToString : Term → String
  | .namedNode nn => "<" ++ nn ++ ">"
  | .blankNode b => "_:" ++ b
  | .literal l =>
    let core := "\"" ++ l.value ++ "\""
    match l.lang with
    | some lang => core ++ "@" ++ lang
    | none =>
      if l.datatype == xsdString then core
      else core ++ "^^<" ++ l.datatype ++ ">"

/-- The `for var in solution.variables()` message-placeholder
substitution of both SELECT loops: replace `{?var}` and `{$var}` by the
bound term's rendering. -/
def substituteMessage (sol : Solution) (message : String) : String :=
  sol.foldl (fun msg p =>
    let varName := p.1
    let placeholder1 := "\x7b?" ++ varName ++ "\x7d"
    let placeholder2 := "\x7b$" ++ varName ++ "\x7d"
    ((msg.replace placeholder1 (termToString p.2)).replace placeholder2
      (termToString p.2))) message

/-- The `?value`-or-focus-node choice of both SELECT loops. -/
def failedValueNodeOf (c : Context) (sol : Solution) : Option Term :=
  match solutionGet sol "value" with
  | some val => some val
  | none =>
    if (c.source_shape.asNodeId).isSome then some c.focus_node else none

/-- The `?path` override of both SELECT loops. -/
def resultPathOverride (sol : Solution) : Option Path :=
  match solutionGet sol "path" with
  | some (.namedNode pathIri) => some (.Simple (.namedNode pathIri))
  | _ => none

/-- The default message choice of the `sh:SPARQLConstraint` SELECT loop:
`?message` binding, else the first `sh:message` of the constraint node,
else a fixed text. -/
def sparqlConstraintMessage (sol : Solution) (messages : List Term) : String :=
  match solutionGet sol "message" with
  | some t => termToString t
  | none =>
    match messages with
    | m :: _ => termToString m
    | [] => "Node does not conform to SPARQL constraint"

/-- The solutions loop of `SPARQLConstraintComponent::validate`
(`sparql.rs` lines 574-637): a solution with `?failure = true` aborts
the whole component with an error; otherwise duplicate
`failed_value_node`s are suppressed and each remaining solution becomes
a `Fail` result. -/
def sparqlConstraintLoop (componentId : ComponentID) (c : Context)
    (constraintNode : Term) (messages : List Term) :
    List Solution → List (Option Term) → List ComponentValidationResult →
    Except String (List ComponentValidationResult)
  | [], _, results => .ok results
  | sol :: rest, seen, results =>
    if failureSignalled sol then
      .error "SPARQL query reported a failure."
    else
      let failedValueNode := failedValueNodeOf c sol
      if seen.contains failedValueNode then
        -- Skip duplicate solutions
        sparqlConstraintLoop componentId c constraintNode messages rest seen results
      else
        let message := substituteMessage sol (sparqlConstraintMessage sol messages)
        sparqlConstraintLoop componentId c constraintNode messages rest
          (failedValueNode :: seen)
          (results ++ [.Fail c ⟨componentId, failedValueNode, message,
            resultPathOverride sol, some constraintNode⟩])

/-- The default message choice of the custom SELECT-validator loop:
`?message` binding, else the validator's first `sh:message`, else a
fixed text naming the component. -/
def customValidatorMessage (sol : Solution) (validatorMessages : List Term)
    (componentIri : String) : String :=
  match solutionGet sol "message" with
  | some t => termToString t
  | none =>
    match validatorMessages with
    | m :: _ => termToString m
    | [] => "Node does not conform to custom constraint " ++ componentIri

/-- The SELECT-validator solutions loop of
`CustomConstraintComponent::validate` (`sparql.rs` lines 1115-1178):
same structure as the `sh:SPARQLConstraint` loop, with the custom
component's default message and no `source_constraint`. -/
def customSelectLoop (componentId : ComponentID) (c : Context)
    (componentIri : String) (validatorMessages : List Term) :
    List Solution → List (Option Term) → List ComponentValidationResult →
    Except String (List ComponentValidationResult)
  | [], _, results => .ok results
  | sol :: rest, seen, results =>
    if failureSignalled sol then
      .error "SPARQL validator reported a failure."
    else
      let failedValueNode := failedValueNodeOf c sol
      if seen.contains failedValueNode then
        -- Skip duplicate solutions
        customSelectLoop componentId c componentIri validatorMessages rest seen results
      else
        let message := substituteMessage sol
          (customValidatorMessage sol validatorMessages componentIri)
        customSelectLoop componentId c componentIri validatorMessages rest
          (failedValueNode :: seen)
          (results ++ [.Fail c ⟨componentId, failedValueNode, message,
            resultPathOverride sol, none⟩])

/-! ### `SPARQLConstraintComponent::validate` -/

/-- The result forms of the SPARQL engine the validators distinguish. -/
inductive QueryResultsM where
  | Solutions : List Solution → QueryResultsM
  | Boolean : Bool → QueryResultsM
  | Other : QueryResultsM

/-- The external SPARQL machinery used by
`SPARQLConstraintComponent::validate`: `spargebra` algebra parsing,
query execution with substituted variables
(`query_opt_with_substituted_variables`), and the prefix assembly
`get_prefixes_for_sparql_node`, which consults the store together with
the ontology environment (an external collaborator, spec §1). -/
structure SparqlEngine where
  parseAlgebra : String → Except String AlgebraQuery
  exec : String → List (String × Term) → Except String QueryResultsM
  prefixesForNode : Term → Except String String

/-- Model of `store.quads_for_pattern(subject, predicate, None, graph).next()` —
the first quad of the store matching subject, predicate and graph. -/
def firstQuad (store : List QuadT) (s : Term) (p : Term) (g : String) :
    Option QuadT :=
  store.find? (fun q => q.subj == s && q.pred == p && q.graph == g)

/-- The deactivation probe at the top of
`SPARQLConstraintComponent::validate` (`sparql.rs` lines 433-450): the
first `sh:deactivated` quad of the constraint node in the shapes graph
carries a boolean literal `"true"`. -/
def sparqlConstraintDeactivated (store : List QuadT) (constraintNode : Term)
    (shapesGraphIri : String) : Bool :=
  match firstQuad store constraintNode shDeactivated shapesGraphIri with
  | some q =>
    match q.obj with
    | .literal l => l.datatype == xsdBoolean && l.value == "true"
    | _ => false
  | none => false

/-- All `sh:message` objects of the constraint node in the shapes graph. -/
def messagesOf (store : List QuadT) (constraintNode : Term)
    (shapesGraphIri : String) : List Term :=
  ((store.filter (fun q => q.subj == constraintNode && q.pred == shMessage
    && q.graph == shapesGraphIri)).map (·.obj))

/-- The prebound-variable names of a `sh:SPARQLConstraint` SELECT query:
`this`, and `currentShape`/`shapesGraph` when mentioned (the latter two
also being optional). -/
def sparqlConstraintPrebound (fullQuery : String) : List String × List String :=
  let base : List String :=
    if queryMentionsVar fullQuery "this" then ["this"] else []
  let withShape :=
    if queryMentionsVar fullQuery "currentShape" then base ++ ["currentShape"]
    else base
  let prebound :=
    if queryMentionsVar fullQuery "shapesGraph" then withShape ++ ["shapesGraph"]
    else withShape
  let optionalVars :=
    (if queryMentionsVar fullQuery "currentShape" then ["currentShape"] else [])
      ++ (if queryMentionsVar fullQuery "shapesGraph" then ["shapesGraph"] else [])
  (prebound, optionalVars)

/-- The substitutions `SPARQLConstraintComponent::validate` passes to the
engine: `this` (focus node), `currentShape` (source-shape term, when
resolvable) and `shapesGraph`, each only when the query mentions it. -/
def sparqlConstraintSubstitutions (fullQuery : String) (c : Context)
    (currentShapeTerm : Option Term) (shapesGraphIri : String) :
    List (String × Term) :=
  (if queryMentionsVar fullQuery "this" then [("this", c.focus_node)] else [])
    ++ (match currentShapeTerm with
        | some t =>
          if queryMentionsVar fullQuery "currentShape" then [("currentShape", t)]
          else []
        | none => [])
    ++ (if queryMentionsVar fullQuery "shapesGraph"
        then [("shapesGraph", Term.namedNode shapesGraphIri)] else [])

/-- Model of `SPARQLConstraintComponent::validate` (`sparql.rs` lines 422-643).
`propShapeSparqlPath` models `get_prop_shape_by_id(..).sparql_path()`
(the current `PropertyShape::sparql_path` accessor is not among the
sources at hand; per spec §4.4 it is the shape path's SPARQL rendering).
`currentShapeTerm` models `c.source_shape().get_term(context)`. -/
def sparqlConstraintValidate (engine : SparqlEngine) (store : List QuadT)
    (shapesGraphIri : String) (constraintNode : Term)
    (componentId : ComponentID) (c : Context)
    (propShapeSparqlPath : PropShapeID → Option String)
    (currentShapeTerm : Option Term) :
    Except String (List ComponentValidationResult) :=
  -- 1. Check if deactivated
  if sparqlConstraintDeactivated store constraintNode shapesGraphIri then
    .ok []
  else
    -- 2. Get SELECT query
    match firstQuad store constraintNode shSelect shapesGraphIri with
    | none => .error "SPARQL constraint is missing sh:select"
    | some quad =>
      match quad.obj with
      | .literal lit => do
        let pfx ← engine.prefixesForNode constraintNode
        -- $PATH substitution for property shapes
        let selectQuery :=
          match c.source_shape.asPropId with
          | some propId =>
            match propShapeSparqlPath propId with
            | some pathStr => lit.value.replace "$PATH" pathStr
            | none => lit.value
          | none => lit.value
        let fullQueryStr :=
          if pfx ≠ "" then pfx ++ "\n" ++ selectQuery else selectQuery
        let algebraQuery ← engine.parseAlgebra fullQueryStr
        let (prebound, optionalVars) := sparqlConstraintPrebound fullQueryStr
        ensurePreBindingSemantics algebraQuery "SPARQL constraint query"
          prebound optionalVars
        let substitutions := sparqlConstraintSubstitutions fullQueryStr c
          currentShapeTerm shapesGraphIri
        let messages := messagesOf store constraintNode shapesGraphIri
        let queryResults ← engine.exec fullQueryStr substitutions
        match queryResults with
        | .Solutions solutions =>
          sparqlConstraintLoop componentId c constraintNode messages
            solutions [] []
        | _ => .ok []  -- Other query result types are ignored
      | _ => .error "sh:select value must be a literal string"

/-! ## Validation driver (spec §4.2)

The current driver (`validate::validate` and the `NodeShape::validate`
it dispatches to; the `validate.rs` present is an earlier, disconnected
draft whose signatures no longer match `types.rs`) is not among the
sources at hand. -/

/-- Modelled from the spec: the per-shape step of the validation driver
(`validate::validate` / `NodeShape::validate`, missing from the
sources).  Spec §4.2: "`shape` not deactivated; otherwise skipped" — a
deactivated shape is skipped before target resolution, so its validation
contributes nothing to the report builder; an active shape appends
whatever failures running it produces (`runShape`). -/
def driverRunShape (deactivated : Bool)
    (runShape : Unit → List (Context × String))
    (rb : ValidationReportBuilder) : ValidationReportBuilder :=
  if deactivated then rb
  else ⟨rb.results ++ runShape ()⟩

/-- The predicates of the helper triples `path_to_rdf` (and its
`build_rdf_list` helper) can insert: the structural path vocabulary and
the RDF list vocabulary. -/
def pathPred (t : Term) : Bool :=
  t == shInversePath || t == shAlternativePath || t == shZeroOrMorePath
    || t == shOneOrMorePath || t == shZeroOrOnePath || t == rdfFirst
    || t == rdfRest

/-! ## Theorems -/

/-- C4: for every validation context, `MinCount(n)` passes iff the
number of value nodes is at least `n`, and `MaxCount(n)` passes iff the
number of value nodes is at most `n`; in particular `MinCount(0)` always
passes and `MaxCount(0)` fails exactly when the value-node list is
non-empty. -/
theorem c4_min_max_count_semantics :
    ∀ (n : Nat) (cid : ComponentID) (c : Context),
      (((MinCountConstraintComponent.mk n).validate cid c).isOk
        ↔ n ≤ contextValueCount c)
      ∧ (((MaxCountConstraintComponent.mk n).validate cid c).isOk
        ↔ contextValueCount c ≤ n)
      ∧ ((MinCountConstraintComponent.mk 0).validate cid c).isOk
      ∧ (¬ ((MaxCountConstraintComponent.mk 0).validate cid c).isOk
        ↔ c.value_nodes.getD [] ≠ []) := by
  intro n cid c
  have hcount : contextValueCount c = (c.value_nodes.getD []).length := by
    cases hv : c.value_nodes <;> simp [contextValueCount, hv]
  have hmin : ∀ m : Nat,
      ((MinCountConstraintComponent.mk m).validate cid c).isOk
        ↔ m ≤ contextValueCount c := by
    intro m
    unfold MinCountConstraintComponent.validate
    by_cases h : contextValueCount c < m <;>
      simp [h, Except.isOk, Except.toBool] <;> omega
  have hmax : ∀ m : Nat,
      ((MaxCountConstraintComponent.mk m).validate cid c).isOk
        ↔ contextValueCount c ≤ m := by
    intro m
    unfold MaxCountConstraintComponent.validate
    by_cases h : contextValueCount c > m <;>
      simp [h, Except.isOk, Except.toBool] <;> omega
  refine ⟨hmin n, hmax n, (hmin 0).2 (Nat.zero_le _), ?_⟩
  rw [hmax 0]
  constructor
  · intro h hnil
    rw [hnil] at hcount
    simp at hcount
    omega
  · intro hne hle
    apply hne
    have hz : (c.value_nodes.getD []).length = 0 := by omega
    exact List.length_eq_zero.mp hz

/-- C7: `to_sparql_path` renders `Sequence` and `Alternative` wrapped in
parentheses, joining the members' renderings with `" / "` resp.
`" | "`, and returns an error for any sequence or alternative with
fewer than two members, so no degenerate sequence or alternative is
ever rendered. -/
theorem c7_sequence_alternative_rendering :
    ∀ (ps : List Path),
      (ps.length < 2 →
        (Path.toSparqlPath (.Sequence ps)).isOk = false
        ∧ (Path.toSparqlPath (.Alternative ps)).isOk = false)
      ∧ (∀ rs : List String, Path.toSparqlPathList ps = .ok rs →
          2 ≤ ps.length →
          Path.toSparqlPath (.Sequence ps)
            = .ok ("(" ++ String.intercalate " / " rs ++ ")")
          ∧ Path.toSparqlPath (.Alternative ps)
            = .ok ("(" ++ String.intercalate " | " rs ++ ")")) := by
  intro ps
  constructor
  · intro hlt
    constructor <;>
      simp [Path.toSparqlPath, hlt, Except.isOk, Except.toBool]
  · intro rs hok hge
    have hnlt : ¬ ps.length < 2 := by omega
    constructor <;>
      simp [Path.toSparqlPath, hnlt, hok, Bind.bind, Except.bind]

/-- C7 witness: the empty sequence is rejected while a two-member
sequence renders parenthesised and `/`-joined. -/
theorem c7_witness :
    (Path.toSparqlPath (.Sequence [])).isOk = false
    ∧ Path.toSparqlPath (.Sequence [.Simple (.namedNode "http://a"),
        .Simple (.namedNode "http://b")])
      = .ok "(<http://a> / <http://b>)" := by
  refine ⟨((c7_sequence_alternative_rendering []).1 (by simp)).1, ?_⟩
  have h := (c7_sequence_alternative_rendering
    [.Simple (.namedNode "http://a"), .Simple (.namedNode "http://b")]).2
    ["<http://a>", "<http://b>"] rfl (by simp)
  simpa using h.1

/-- C10: `SubjectsOf`/`ObjectsOf` targets whose predicate term is not an
IRI resolve with `Ok` to an empty focus-node list rather than an error,
silently selecting no nodes. -/
theorem c10_non_iri_predicate_targets_empty :
    ∀ (g : List TripleT) (classInstances : Term → List Term) (sid : ID)
      (p : Term), p.isNamedNode = false →
      Target.getTargetNodes g classInstances sid (.SubjectsOf p) = .ok []
      ∧ Target.getTargetNodes g classInstances sid (.ObjectsOf p) = .ok [] := by
  intro g ci sid p hp
  cases p with
  | namedNode nn => simp [Term.isNamedNode] at hp
  | blankNode b => exact ⟨rfl, rfl⟩
  | literal l => exact ⟨rfl, rfl⟩

/-- C10 witness: a literal-predicate `SubjectsOf` target selects no
nodes on a non-empty graph. -/
theorem c10_witness :
    (Term.literal ⟨"p", "http://www.w3.org/2001/XMLSchema#string", none⟩).isNamedNode = false
    ∧ Target.getTargetNodes
        [⟨.namedNode "http://s", .namedNode "http://p", .namedNode "http://o"⟩]
        (fun _ => []) 0
        (.SubjectsOf (.literal ⟨"p", "http://www.w3.org/2001/XMLSchema#string", none⟩))
      = .ok [] := by
  refine ⟨rfl, ?_⟩
  exact (c10_non_iri_predicate_targets_empty
    [⟨.namedNode "http://s", .namedNode "http://p", .namedNode "http://o"⟩]
    (fun _ => []) 0
    (.literal ⟨"p", "http://www.w3.org/2001/XMLSchema#string", none⟩) rfl).1

/-- C5: `Node(t)` resolves to exactly the singleton focus-node set
`{t}` without issuing a query, and `SubjectsOf(p)` (resp. `ObjectsOf(p)`)
for an IRI `p` resolves to exactly the distinct set of subjects
(resp. objects) of data-graph triples with predicate `p`. -/
theorem c5_target_resolution :
    ∀ (g : List TripleT) (classInstances : Term → List Term) (sid : ID)
      (t : Term) (i : String),
      (Target.getTargetNodes g classInstances sid (.Node t)
          = .ok [Context.new t none (some [t]) (.NodeShape sid)]
        ∧ Target.queriesIssued (.Node t) = 0)
      ∧ (∀ cs, Target.getTargetNodes g classInstances sid
            (.SubjectsOf (.namedNode i)) = .ok cs →
          (cs.map Context.focus_node).Nodup
          ∧ ∀ s : Term, s ∈ cs.map Context.focus_node
              ↔ ∃ o, TripleT.mk s (.namedNode i) o ∈ g)
      ∧ (∀ cs, Target.getTargetNodes g classInstances sid
            (.ObjectsOf (.namedNode i)) = .ok cs →
          (cs.map Context.focus_node).Nodup
          ∧ ∀ o : Term, o ∈ cs.map Context.focus_node
              ↔ ∃ s, TripleT.mk s (.namedNode i) o ∈ g) := by
  intro g ci sid t i
  refine ⟨⟨rfl, rfl⟩, ?_, ?_⟩
  · intro cs hcs
    have hcs' : cs = (sparqlDistinctSubjects g i).map (fun s =>
        Context.new s none (some [s]) (.NodeShape sid)) := by
      simpa [Target.getTargetNodes] using hcs.symm
    subst hcs'
    have hmap : ((sparqlDistinctSubjects g i).map (fun s =>
        Context.new s none (some [s]) (.NodeShape sid))).map Context.focus_node
        = sparqlDistinctSubjects g i := by
      simp [List.map_map, Context.new, Function.comp_def]
    rw [hmap]
    refine ⟨List.nodup_dedup _, ?_⟩
    intro s
    simp only [sparqlDistinctSubjects, List.mem_dedup, List.mem_map,
      List.mem_filter, beq_iff_eq]
    constructor
    · rintro ⟨tr, ⟨htr, hpred⟩, hsubj⟩
      exact ⟨tr.obj, by rcases tr with ⟨a, b, o⟩; simp_all⟩
    · rintro ⟨o, ho⟩
      exact ⟨⟨s, .namedNode i, o⟩, ⟨ho, rfl⟩, rfl⟩
  · intro cs hcs
    have hcs' : cs = (sparqlDistinctObjects g i).map (fun o =>
        Context.new o none (some [o]) (.NodeShape sid)) := by
      simpa [Target.getTargetNodes] using hcs.symm
    subst hcs'
    have hmap : ((sparqlDistinctObjects g i).map (fun o =>
        Context.new o none (some [o]) (.NodeShape sid))).map Context.focus_node
        = sparqlDistinctObjects g i := by
      simp [List.map_map, Context.new, Function.comp_def]
    rw [hmap]
    refine ⟨List.nodup_dedup _, ?_⟩
    intro o
    simp only [sparqlDistinctObjects, List.mem_dedup, List.mem_map,
      List.mem_filter, beq_iff_eq]
    constructor
    · rintro ⟨tr, ⟨htr, hpred⟩, hobj⟩
      exact ⟨tr.subj, by rcases tr with ⟨s, b, c⟩; simp_all⟩
    · rintro ⟨s, hs⟩
      exact ⟨⟨s, .namedNode i, o⟩, ⟨hs, rfl⟩, rfl⟩

/-- C5 witness: on a two-triple graph, `Node` gives its singleton with
no query, and `SubjectsOf` gives exactly the one subject of the
matching triple. -/
theorem c5_witness :
    Target.getTargetNodes
        [⟨.namedNode "http://s", .namedNode "http://p", .namedNode "http://o"⟩,
         ⟨.namedNode "http://x", .namedNode "http://q", .namedNode "http://y"⟩]
        (fun _ => []) 7 (.Node (.namedNode "http://n"))
      = .ok [Context.new (.namedNode "http://n") none
          (some [.namedNode "http://n"]) (.NodeShape 7)]
    ∧ (Term.namedNode "http://s" ∈
        ([Context.new (.namedNode "http://s") none
          (some [.namedNode "http://s"]) (.NodeShape 7)].map Context.focus_node)
        ↔ ∃ o, TripleT.mk (.namedNode "http://s") (.namedNode "http://p") o ∈
          [TripleT.mk (.namedNode "http://s") (.namedNode "http://p") (.namedNode "http://o"),
           TripleT.mk (.namedNode "http://x") (.namedNode "http://q") (.namedNode "http://y")]) := by
  have h := c5_target_resolution
    [⟨.namedNode "http://s", .namedNode "http://p", .namedNode "http://o"⟩,
     ⟨.namedNode "http://x", .namedNode "http://q", .namedNode "http://y"⟩]
    (fun _ => []) 7 (.namedNode "http://n") "http://p"
  refine ⟨h.1.1, ?_⟩
  exact (h.2.1 [Context.new (.namedNode "http://s") none
    (some [.namedNode "http://s"]) (.NodeShape 7)] rfl).2 (.namedNode "http://s")

/-- Splitting a list's length by a predicate: matching plus
non-matching element counts. -/
theorem countP_split {α : Type} (p : α → Bool) (l : List α) :
    l.countP p + l.countP (fun a => !p a) = l.length := by
  induction l with
  | nil => simp
  | cons x xs ih =>
    by_cases h : p x <;> simp [List.countP_cons, h] <;> omega

/-- C6: `remove_unreachable_targets` replaces every node shape's target
list by its previous list with exactly those `Class(c)` targets removed
whose class `c` is absent from the used-types set; targets of other
kinds and all other fields are unchanged, and the stats counter grows by
the total number of targets removed. -/
theorem c6_remove_unreachable_targets :
    ∀ (types : List Term) (shapes : List NodeShape) (stats : OptimizerStats),
      (removeUnreachableTargets types shapes stats).1
        = shapes.map (fun s =>
            { s with targets := s.targets.filter (keepTarget types) })
      ∧ (removeUnreachableTargets types shapes stats).2.unreachable_targets_removed
        = stats.unreachable_targets_removed
          + (shapes.map (fun s =>
              s.targets.countP (fun t => !keepTarget types t))).sum
      ∧ (∀ t : Target, keepTarget types t = false
          ↔ ∃ c, t = .Class c ∧ ¬ c ∈ types) := by
  intro types shapes
  induction shapes with
  | nil =>
    intro stats
    refine ⟨rfl, by simp [removeUnreachableTargets], ?_⟩
    intro t
    cases t <;> simp [keepTarget, List.elem_iff]
  | cons s rest ih =>
    intro stats
    have hrec := ih ⟨stats.unreachable_targets_removed
      + (s.targets.length - (s.targets.filter (keepTarget types)).length)⟩
    have hremoved : s.targets.length - (s.targets.filter (keepTarget types)).length
        = s.targets.countP (fun t => !keepTarget types t) := by
      have hlen := countP_split (keepTarget types) s.targets
      have hfl : (s.targets.filter (keepTarget types)).length
          = s.targets.countP (keepTarget types) :=
        (List.countP_eq_length_filter _ _).symm
      omega
    refine ⟨?_, ?_, (ih stats).2.2⟩
    · simp only [removeUnreachableTargets, removeUnreachableTargetsShape]
      simp [hrec.1]
    · simp only [removeUnreachableTargets, removeUnreachableTargetsShape]
      rw [hrec.2.1]
      simp [hremoved]
      omega

/-- C6 witness: a shape with one reachable `Class` target, one
unreachable `Class` target and one `SubjectsOf` target keeps exactly
the reachable and non-class targets, and two removals are counted
across shapes. -/
theorem c6_witness :
    (removeUnreachableTargets [.namedNode "http://T"]
        [⟨0, [.Class (.namedNode "http://T"), .Class (.namedNode "http://U"),
              .SubjectsOf (.namedNode "http://p")], [1], [2]⟩,
         ⟨1, [.Class (.namedNode "http://V")], [], []⟩] ⟨0⟩).1
      = [⟨0, [.Class (.namedNode "http://T"),
              .SubjectsOf (.namedNode "http://p")], [1], [2]⟩,
         ⟨1, [], [], []⟩]
    ∧ (removeUnreachableTargets [.namedNode "http://T"]
        [⟨0, [.Class (.namedNode "http://T"), .Class (.namedNode "http://U"),
              .SubjectsOf (.namedNode "http://p")], [1], [2]⟩,
         ⟨1, [.Class (.namedNode "http://V")], [], []⟩] ⟨0⟩).2
      = ⟨2⟩ := by
  have h := c6_remove_unreachable_targets [.namedNode "http://T"]
    [⟨0, [.Class (.namedNode "http://T"), .Class (.namedNode "http://U"),
          .SubjectsOf (.namedNode "http://p")], [1], [2]⟩,
     ⟨1, [.Class (.namedNode "http://V")], [], []⟩] ⟨0⟩
  constructor
  · rw [h.1]
    rfl
  · have h2 := h.2.1
    have : (removeUnreachableTargets [.namedNode "http://T"]
        [⟨0, [.Class (.namedNode "http://T"), .Class (.namedNode "http://U"),
              .SubjectsOf (.namedNode "http://p")], [1], [2]⟩,
         ⟨1, [.Class (.namedNode "http://V")], [], []⟩] ⟨0⟩).2.unreachable_targets_removed = 2 := by
      rw [h2]
      rfl
    cases hx : (removeUnreachableTargets [.namedNode "http://T"]
        [⟨0, [.Class (.namedNode "http://T"), .Class (.namedNode "http://U"),
              .SubjectsOf (.namedNode "http://p")], [1], [2]⟩,
         ⟨1, [.Class (.namedNode "http://V")], [], []⟩] ⟨0⟩).2 with
    | mk k =>
      rw [hx] at this
      simp at this
      rw [this]

/-- Sequencing two checks succeeds iff both succeed. -/
theorem bind_isOk_iff (a : Except String Unit) (b : Except String Unit) :
    (a >>= fun _ => b).isOk = (a.isOk && b.isOk) := by
  cases a <;> simp [Bind.bind, Except.bind, Except.isOk, Except.toBool]

set_option maxHeartbeats 2000000

mutual

/-- A graph pattern containing `VALUES`, `MINUS` or `SERVICE` anywhere
never passes `check_graph_pattern`. -/
theorem checkGraphPattern_forbidden :
    ∀ (p : GraphPattern) (label : String) (prebound opt : List String)
      (isRoot : Bool), patternHasForbidden p = true →
      (checkGraphPattern p label prebound opt isRoot).isOk = false
  | .Bgp, label, prebound, opt, isRoot => by
    intro h
    simp [patternHasForbidden] at h
  | .Path, label, prebound, opt, isRoot => by
    intro h
    simp [patternHasForbidden] at h
  | .Join left right, label, prebound, opt, isRoot => by
    intro h
    simp only [patternHasForbidden, Bool.or_eq_true] at h
    simp only [checkGraphPattern, bind_isOk_iff, Bool.and_eq_false_iff]
    rcases h with h | h
    · exact Or.inl (checkGraphPattern_forbidden left label prebound opt false h)
    · exact Or.inr (checkGraphPattern_forbidden right label prebound opt false h)
  | .Union left right, label, prebound, opt, isRoot => by
    intro h
    simp only [patternHasForbidden, Bool.or_eq_true] at h
    simp only [checkGraphPattern, bind_isOk_iff, Bool.and_eq_false_iff]
    rcases h with h | h
    · exact Or.inl (checkGraphPattern_forbidden left label prebound opt false h)
    · exact Or.inr (checkGraphPattern_forbidden right label prebound opt false h)
  | .Lateral left right, label, prebound, opt, isRoot => by
    intro h
    simp only [patternHasForbidden, Bool.or_eq_true] at h
    simp only [checkGraphPattern, bind_isOk_iff, Bool.and_eq_false_iff]
    rcases h with h | h
    · exact Or.inl (checkGraphPattern_forbidden left label prebound opt false h)
    · exact Or.inr (checkGraphPattern_forbidden right label prebound opt false h)
  | .Graph name inner, label, prebound, opt, isRoot => by
    intro h
    simp only [patternHasForbidden] at h
    simp only [checkGraphPattern]
    exact checkGraphPattern_forbidden inner label prebound opt isRoot h
  | .Distinct inner, label, prebound, opt, isRoot => by
    intro h
    simp only [patternHasForbidden] at h
    simp only [checkGraphPattern]
    exact checkGraphPattern_forbidden inner label prebound opt isRoot h
  | .Reduced inner, label, prebound, opt, isRoot => by
    intro h
    simp only [patternHasForbidden] at h
    simp only [checkGraphPattern]
    exact checkGraphPattern_forbidden inner label prebound opt isRoot h
  | .Slice inner s ln, label, prebound, opt, isRoot => by
    intro h
    simp only [patternHasForbidden] at h
    simp only [checkGraphPattern]
    exact checkGraphPattern_forbidden inner label prebound opt isRoot h
  | .Filter expr inner, label, prebound, opt, isRoot => by
    intro h
    simp only [patternHasForbidden, Bool.or_eq_true] at h
    simp only [checkGraphPattern, bind_isOk_iff, Bool.and_eq_false_iff]
    rcases h with h | h
    · exact Or.inl (checkExpression_forbidden expr label prebound opt h)
    · exact Or.inr (checkGraphPattern_forbidden inner label prebound opt false h)
  | .LeftJoin left right (some e), label, prebound, opt, isRoot => by
    intro h
    simp only [patternHasForbidden, Bool.or_eq_true] at h
    simp only [checkGraphPattern, bind_isOk_iff, Bool.and_eq_false_iff]
    rcases h with (h | h) | h
    · exact Or.inl (checkGraphPattern_forbidden left label prebound opt false h)
    · exact Or.inr (Or.inl
        (checkGraphPattern_forbidden right label prebound opt false h))
    · exact Or.inr (Or.inr (checkExpression_forbidden e label prebound opt h))
  | .LeftJoin left right none, label, prebound, opt, isRoot => by
    intro h
    simp only [patternHasForbidden, Bool.or_eq_true] at h
    simp only [checkGraphPattern, bind_isOk_iff, Bool.and_eq_false_iff]
    rcases h with (h | h) | h
    · exact Or.inl (checkGraphPattern_forbidden left label prebound opt false h)
    · exact Or.inr (Or.inl
        (checkGraphPattern_forbidden right label prebound opt false h))
    · simp at h
  | .Extend inner vname expression, label, prebound, opt, isRoot => by
    intro h
    simp only [patternHasForbidden, Bool.or_eq_true] at h
    simp only [checkGraphPattern]
    by_cases hc : prebound.contains vname = true
    · rw [if_pos hc]
      simp [Except.isOk, Except.toBool]
    · rw [if_neg hc]
      simp only [bind_isOk_iff, Bool.and_eq_false_iff]
      rcases h with h | h
      · exact Or.inl (checkExpression_forbidden expression label prebound opt h)
      · exact Or.inr (checkGraphPattern_forbidden inner label prebound opt false h)
  | .Group inner vars aggregates, label, prebound, opt, isRoot => by
    intro h
    simp only [patternHasForbidden, Bool.or_eq_true] at h
    simp only [checkGraphPattern, bind_isOk_iff, Bool.and_eq_false_iff]
    rcases h with h | h
    · exact Or.inl (checkAggregates_forbidden aggregates label prebound opt h)
    · exact Or.inr (checkGraphPattern_forbidden inner label prebound opt false h)
  | .Project inner vars, label, prebound, opt, isRoot => by
    intro h
    simp only [patternHasForbidden] at h
    simp only [checkGraphPattern]
    have hinner := checkGraphPattern_forbidden inner label prebound opt false h
    by_cases hr : isRoot <;>
      simp [hr, bind_isOk_iff, hinner]
  | .Values vs, label, prebound, opt, isRoot => by
    intro h
    simp [checkGraphPattern, Except.isOk, Except.toBool]
  | .Minus left right, label, prebound, opt, isRoot => by
    intro h
    simp [checkGraphPattern, Except.isOk, Except.toBool]
  | .Service name inner silent, label, prebound, opt, isRoot => by
    intro h
    simp [checkGraphPattern, Except.isOk, Except.toBool]
  | .OrderBy inner exprs, label, prebound, opt, isRoot => by
    intro h
    simp only [patternHasForbidden, Bool.or_eq_true] at h
    simp only [checkGraphPattern, bind_isOk_iff, Bool.and_eq_false_iff]
    rcases h with h | h
    · exact Or.inl (checkOrderExpressions_forbidden exprs label prebound opt h)
    · exact Or.inr (checkGraphPattern_forbidden inner label prebound opt isRoot h)
termination_by p _ _ _ _ => sizeOf p

/-- An aggregate list containing a forbidden clause never passes the
aggregate loop of `check_graph_pattern`. -/
theorem checkAggregates_forbidden :
    ∀ (ags : List (String × AggregateExpression)) (label : String)
      (prebound opt : List String), aggregatesHaveForbidden ags = true →
      (checkAggregates ags label prebound opt).isOk = false
  | [], label, prebound, opt => by
    intro h
    simp [aggregatesHaveForbidden] at h
  | (vname, a) :: rest, label, prebound, opt => by
    intro h
    simp only [aggregatesHaveForbidden, Bool.or_eq_true] at h
    simp only [checkAggregates]
    by_cases hc : prebound.contains vname = true
    · rw [if_pos hc]
      simp [Except.isOk, Except.toBool]
    · rw [if_neg hc]
      simp only [bind_isOk_iff, Bool.and_eq_false_iff]
      rcases h with h | h
      · exact Or.inl (checkAggregateExpression_forbidden a label prebound opt h)
      · exact Or.inr (checkAggregates_forbidden rest label prebound opt h)
termination_by ags _ _ _ => sizeOf ags

/-- An aggregate whose inner expression contains a forbidden clause
never passes `check_aggregate_expression`. -/
theorem checkAggregateExpression_forbidden :
    ∀ (a : AggregateExpression) (label : String) (prebound opt : List String),
      aggregateHasForbidden a = true →
      (checkAggregateExpression a label prebound opt).isOk = false
  | .CountSolutions d, label, prebound, opt => by
    intro h
    simp [aggregateHasForbidden] at h
  | .FunctionCall name expr d, label, prebound, opt => by
    intro h
    simp only [aggregateHasForbidden] at h
    simp only [checkAggregateExpression]
    exact checkExpression_forbidden expr label prebound opt h
termination_by a _ _ _ => sizeOf a

/-- An ORDER BY list containing a forbidden clause never passes the
order-expression loop. -/
theorem checkOrderExpressions_forbidden :
    ∀ (exprs : List OrderExpression) (label : String)
      (prebound opt : List String),
      orderExpressionsHaveForbidden exprs = true →
      (checkOrderExpressions exprs label prebound opt).isOk = false
  | [], label, prebound, opt => by
    intro h
    simp [orderExpressionsHaveForbidden] at h
  | .Asc e :: rest, label, prebound, opt => by
    intro h
    simp only [orderExpressionsHaveForbidden, Bool.or_eq_true] at h
    simp only [checkOrderExpressions, checkOrderExpression, bind_isOk_iff,
      Bool.and_eq_false_iff]
    rcases h with h | h
    · exact Or.inl (checkExpression_forbidden e label prebound opt h)
    · exact Or.inr (checkOrderExpressions_forbidden rest label prebound opt h)
  | .Desc e :: rest, label, prebound, opt => by
    intro h
    simp only [orderExpressionsHaveForbidden, Bool.or_eq_true] at h
    simp only [checkOrderExpressions, checkOrderExpression, bind_isOk_iff,
      Bool.and_eq_false_iff]
    rcases h with h | h
    · exact Or.inl (checkExpression_forbidden e label prebound opt h)
    · exact Or.inr (checkOrderExpressions_forbidden rest label prebound opt h)
termination_by exprs _ _ _ => sizeOf exprs

/-- An expression containing a forbidden clause (through `EXISTS`) never
passes `check_expression`. -/
theorem checkExpression_forbidden :
    ∀ (e : Expression) (label : String) (prebound opt : List String),
      exprHasForbidden e = true →
      (checkExpression e label prebound opt).isOk = false
  | .NamedNode n, label, prebound, opt => by
    intro h; simp [exprHasForbidden] at h
  | .Literal l, label, prebound, opt => by
    intro h; simp [exprHasForbidden] at h
  | .Variable v, label, prebound, opt => by
    intro h; simp [exprHasForbidden] at h
  | .Bound v, label, prebound, opt => by
    intro h; simp [exprHasForbidden] at h
  | .UnaryPlus inner, label, prebound, opt => by
    intro h
    simp only [exprHasForbidden] at h
    simp only [checkExpression]
    exact checkExpression_forbidden inner label prebound opt h
  | .UnaryMinus inner, label, prebound, opt => by
    intro h
    simp only [exprHasForbidden] at h
    simp only [checkExpression]
    exact checkExpression_forbidden inner label prebound opt h
  | .Not inner, label, prebound, opt => by
    intro h
    simp only [exprHasForbidden] at h
    simp only [checkExpression]
    exact checkExpression_forbidden inner label prebound opt h
  | .Or l r, label, prebound, opt => by
    intro h
    simp only [exprHasForbidden, Bool.or_eq_true] at h
    simp only [checkExpression, bind_isOk_iff, Bool.and_eq_false_iff]
    rcases h with h | h
    · exact Or.inl (checkExpression_forbidden l label prebound opt h)
    · exact Or.inr (checkExpression_forbidden r label prebound opt h)
  | .And l r, label, prebound, opt => by
    intro h
    simp only [exprHasForbidden, Bool.or_eq_true] at h
    simp only [checkExpression, bind_isOk_iff, Bool.and_eq_false_iff]
    rcases h with h | h
    · exact Or.inl (checkExpression_forbidden l label prebound opt h)
    · exact Or.inr (checkExpression_forbidden r label prebound opt h)
  | .Equal l r, label, prebound, opt => by
    intro h
    simp only [exprHasForbidden, Bool.or_eq_true] at h
    simp only [checkExpression, bind_isOk_iff, Bool.and_eq_false_iff]
    rcases h with h | h
    · exact Or.inl (checkExpression_forbidden l label prebound opt h)
    · exact Or.inr (checkExpression_forbidden r label prebound opt h)
  | .SameTerm l r, label, prebound, opt => by
    intro h
    simp only [exprHasForbidden, Bool.or_eq_true] at h
    simp only [checkExpression, bind_isOk_iff, Bool.and_eq_false_iff]
    rcases h with h | h
    · exact Or.inl (checkExpression_forbidden l label prebound opt h)
    · exact Or.inr (checkExpression_forbidden r label prebound opt h)
  | .Greater l r, label, prebound, opt => by
    intro h
    simp only [exprHasForbidden, Bool.or_eq_true] at h
    simp only [checkExpression, bind_isOk_iff, Bool.and_eq_false_iff]
    rcases h with h | h
    · exact Or.inl (checkExpression_forbidden l label prebound opt h)
    · exact Or.inr (checkExpression_forbidden r label prebound opt h)
  | .GreaterOrEqual l r, label, prebound, opt => by
    intro h
    simp only [exprHasForbidden, Bool.or_eq_true] at h
    simp only [checkExpression, bind_isOk_iff, Bool.and_eq_false_iff]
    rcases h with h | h
    · exact Or.inl (checkExpression_forbidden l label prebound opt h)
    · exact Or.inr (checkExpression_forbidden r label prebound opt h)
  | .Less l r, label, prebound, opt => by
    intro h
    simp only [exprHasForbidden, Bool.or_eq_true] at h
    simp only [checkExpression, bind_isOk_iff, Bool.and_eq_false_iff]
    rcases h with h | h
    · exact Or.inl (checkExpression_forbidden l label prebound opt h)
    · exact Or.inr (checkExpression_forbidden r label prebound opt h)
  | .LessOrEqual l r, label, prebound, opt => by
    intro h
    simp only [exprHasForbidden, Bool.or_eq_true] at h
    simp only [checkExpression, bind_isOk_iff, Bool.and_eq_false_iff]
    rcases h with h | h
    · exact Or.inl (checkExpression_forbidden l label prebound opt h)
    · exact Or.inr (checkExpression_forbidden r label prebound opt h)
  | .Add l r, label, prebound, opt => by
    intro h
    simp only [exprHasForbidden, Bool.or_eq_true] at h
    simp only [checkExpression, bind_isOk_iff, Bool.and_eq_false_iff]
    rcases h with h | h
    · exact Or.inl (checkExpression_forbidden l label prebound opt h)
    · exact Or.inr (checkExpression_forbidden r label prebound opt h)
  | .Subtract l r, label, prebound, opt => by
    intro h
    simp only [exprHasForbidden, Bool.or_eq_true] at h
    simp only [checkExpression, bind_isOk_iff, Bool.and_eq_false_iff]
    rcases h with h | h
    · exact Or.inl (checkExpression_forbidden l label prebound opt h)
    · exact Or.inr (checkExpression_forbidden r label prebound opt h)
  | .Multiply l r, label, prebound, opt => by
    intro h
    simp only [exprHasForbidden, Bool.or_eq_true] at h
    simp only [checkExpression, bind_isOk_iff, Bool.and_eq_false_iff]
    rcases h with h | h
    · exact Or.inl (checkExpression_forbidden l label prebound opt h)
    · exact Or.inr (checkExpression_forbidden r label prebound opt h)
  | .Divide l r, label, prebound, opt => by
    intro h
    simp only [exprHasForbidden, Bool.or_eq_true] at h
    simp only [checkExpression, bind_isOk_iff, Bool.and_eq_false_iff]
    rcases h with h | h
    · exact Or.inl (checkExpression_forbidden l label prebound opt h)
    · exact Or.inr (checkExpression_forbidden r label prebound opt h)
  | .In item items, label, prebound, opt => by
    intro h
    simp only [exprHasForbidden, Bool.or_eq_true] at h
    simp only [checkExpression, bind_isOk_iff, Bool.and_eq_false_iff]
    rcases h with h | h
    · exact Or.inl (checkExpression_forbidden item label prebound opt h)
    · exact Or.inr (checkExpressionList_forbidden items label prebound opt h)
  | .FunctionCall name args, label, prebound, opt => by
    intro h
    simp only [exprHasForbidden] at h
    simp only [checkExpression]
    exact checkExpressionList_forbidden args label prebound opt h
  | .If c t e, label, prebound, opt => by
    intro h
    simp only [exprHasForbidden, Bool.or_eq_true] at h
    simp only [checkExpression, bind_isOk_iff, Bool.and_eq_false_iff]
    rcases h with (h | h) | h
    · exact Or.inl (checkExpression_forbidden c label prebound opt h)
    · exact Or.inr (Or.inl (checkExpression_forbidden t label prebound opt h))
    · exact Or.inr (Or.inr (checkExpression_forbidden e label prebound opt h))
  | .Coalesce exprs, label, prebound, opt => by
    intro h
    simp only [exprHasForbidden] at h
    simp only [checkExpression]
    exact checkExpressionList_forbidden exprs label prebound opt h
  | .Exists pattern, label, prebound, opt => by
    intro h
    simp only [exprHasForbidden] at h
    simp only [checkExpression]
    exact checkGraphPattern_forbidden pattern label prebound opt false h
termination_by e _ _ _ => sizeOf e

/-- An expression list containing a forbidden clause never passes the
argument loop. -/
theorem checkExpressionList_forbidden :
    ∀ (exprs : List Expression) (label : String) (prebound opt : List String),
      exprListHasForbidden exprs = true →
      (checkExpressionList exprs label prebound opt).isOk = false
  | [], label, prebound, opt => by
    intro h
    simp [exprListHasForbidden] at h
  | e :: rest, label, prebound, opt => by
    intro h
    simp only [exprListHasForbidden, Bool.or_eq_true] at h
    simp only [checkExpressionList, bind_isOk_iff, Bool.and_eq_false_iff]
    rcases h with h | h
    · exact Or.inl (checkExpression_forbidden e label prebound opt h)
    · exact Or.inr (checkExpressionList_forbidden rest label prebound opt h)
termination_by exprs _ _ _ => sizeOf exprs

end

set_option maxHeartbeats 400000

/-- C3: every query whose algebra contains a `VALUES`, `MINUS` or
`SERVICE` clause anywhere, at any nesting depth, is rejected by the
pre-binding semantics check with an error, so the SPARQL-based
constraint validators (which run `ensure_pre_binding_semantics` before
executing any query) never execute such a query. -/
theorem c3_prebinding_rejects_forbidden_clauses :
    ∀ (q : AlgebraQuery) (label : String) (prebound opt : List String),
      queryHasForbidden q = true →
      ∃ msg, ensurePreBindingSemantics q label prebound opt = .error msg := by
  have hpat : ∀ (p : GraphPattern) (label : String) (prebound opt : List String)
      (isRoot : Bool), patternHasForbidden p = true →
      ∃ msg, checkGraphPattern p label prebound opt isRoot = .error msg := by
    intro p label prebound opt isRoot h
    have := checkGraphPattern_forbidden p label prebound opt isRoot h
    cases hc : checkGraphPattern p label prebound opt isRoot with
    | ok u => rw [hc] at this; simp [Except.isOk, Except.toBool] at this
    | error msg => exact ⟨msg, rfl⟩
  intro q label prebound opt h
  cases q with
  | Select pattern => exact hpat pattern label prebound opt true h
  | Ask pattern => exact hpat pattern label prebound opt true h
  | Construct pattern => exact hpat pattern label prebound opt true h
  | Describe pattern => exact hpat pattern label prebound opt true h

/-- C3 witness: a SELECT whose pattern joins a BGP with a nested MINUS
is rejected. -/
theorem c3_witness :
    queryHasForbidden (.Select (.Join .Bgp (.Minus .Bgp .Bgp))) = true
    ∧ ∃ msg, ensurePreBindingSemantics
        (.Select (.Join .Bgp (.Minus .Bgp .Bgp)))
        "SPARQL constraint query" ["this"] [] = .error msg := by
  refine ⟨rfl, ?_⟩
  exact c3_prebinding_rejects_forbidden_clauses
    (.Select (.Join .Bgp (.Minus .Bgp .Bgp)))
    "SPARQL constraint query" ["this"] [] rfl

/-- C8: in both SELECT solution loops (`sh:SPARQLConstraint` and the
custom-component SELECT validator), a solution binding `?failure` to the
boolean literal `true` makes the component's validation return an error
instead of a result list, so no `Fail` results from that invocation are
recorded. -/
theorem c8_failure_binding_aborts_component :
    ∀ (sols : List Solution) (cid : ComponentID) (c : Context) (cn : Term)
      (msgs : List Term) (iri : String) (vmsgs : List Term)
      (seen : List (Option Term)) (acc : List ComponentValidationResult),
      (∃ sol ∈ sols, failureSignalled sol = true) →
      sparqlConstraintLoop cid c cn msgs sols seen acc
        = .error "SPARQL query reported a failure."
      ∧ customSelectLoop cid c iri vmsgs sols seen acc
        = .error "SPARQL validator reported a failure." := by
  intro sols cid c cn msgs iri vmsgs
  induction sols with
  | nil =>
    intro seen acc h
    rcases h with ⟨sol, hmem, _⟩
    simp at hmem
  | cons sol rest ih =>
    intro seen acc h
    by_cases hf : failureSignalled sol = true
    · constructor <;> simp [sparqlConstraintLoop, customSelectLoop, hf]
    · have hrest : ∃ s ∈ rest, failureSignalled s = true := by
        rcases h with ⟨s, hmem, hsig⟩
        rcases List.mem_cons.mp hmem with heq | hmem'
        · exact absurd (heq ▸ hsig) hf
        · exact ⟨s, hmem', hsig⟩
      constructor
      · by_cases hdup : failedValueNodeOf c sol ∈ seen
        · simpa [sparqlConstraintLoop, hf, hdup] using (ih _ _ hrest).1
        · simpa [sparqlConstraintLoop, hf, hdup] using (ih _ _ hrest).1
      · by_cases hdup : failedValueNodeOf c sol ∈ seen
        · simpa [customSelectLoop, hf, hdup] using (ih _ _ hrest).2
        · simpa [customSelectLoop, hf, hdup] using (ih _ _ hrest).2

/-- C8 witness: a two-solution run whose second solution binds
`?failure` to `"true"^^xsd:boolean` aborts both loops. -/
theorem c8_witness :
    (∃ sol ∈ [[("value", Term.namedNode "http://v")],
        [("failure", litBool true)]], failureSignalled sol = true)
    ∧ sparqlConstraintLoop 1
        (Context.new (.namedNode "http://f") none none (.NodeShape 0))
        (.namedNode "http://cn") []
        [[("value", Term.namedNode "http://v")], [("failure", litBool true)]] [] []
      = .error "SPARQL query reported a failure." := by
  have hex : ∃ sol ∈ [[("value", Term.namedNode "http://v")],
      [("failure", litBool true)]], failureSignalled sol = true := by
    refine ⟨[("failure", litBool true)], by simp, ?_⟩
    simp [failureSignalled, solutionGet, litBool, xsdBoolean]
  refine ⟨hex, ?_⟩
  exact (c8_failure_binding_aborts_component
    [[("value", Term.namedNode "http://v")], [("failure", litBool true)]]
    1 (Context.new (.namedNode "http://f") none none (.NodeShape 0))
    (.namedNode "http://cn") [] "http://iri" [] [] [] hex).1

/-- C9: a deactivated shape is skipped by the validation driver and
contributes nothing to the report builder (spec-modelled, the driver is
not among the sources), and a deactivated `sh:SPARQLConstraint` returns
an empty result list before touching the SPARQL engine. -/
theorem c9_deactivated_zero_failures :
    (∀ (runShape : Unit → List (Context × String))
      (rb : ValidationReportBuilder), driverRunShape true runShape rb = rb)
    ∧ (∀ (engine : SparqlEngine) (store : List QuadT) (sgi : String)
        (cn : Term) (cid : ComponentID) (c : Context)
        (pl : PropShapeID → Option String) (cst : Option Term),
        sparqlConstraintDeactivated store cn sgi = true →
        sparqlConstraintValidate engine store sgi cn cid c pl cst = .ok []) := by
  constructor
  · intro runShape rb
    simp [driverRunShape]
  · intro engine store sgi cn cid c pl cst h
    simp [sparqlConstraintValidate, h]

/-- C9 witness: a constraint node carrying
`sh:deactivated "true"^^xsd:boolean` in the shapes graph yields an empty
result list, with an engine that would fail if it were ever consulted. -/
theorem c9_witness :
    sparqlConstraintDeactivated
        [⟨.namedNode "http://cn", shDeactivated, litBool true, "http://sg"⟩]
        (.namedNode "http://cn") "http://sg" = true
    ∧ sparqlConstraintValidate
        ⟨fun _ => .error "unreached", fun _ _ => .error "unreached",
         fun _ => .error "unreached"⟩
        [⟨.namedNode "http://cn", shDeactivated, litBool true, "http://sg"⟩]
        "http://sg" (.namedNode "http://cn") 1
        (Context.new (.namedNode "http://f") none none (.NodeShape 0))
        (fun _ => none) none
      = .ok []
    ∧ driverRunShape true
        (fun _ => [(Context.new (.namedNode "http://f") none none
          (.NodeShape 0), "failure")]) ⟨[]⟩ = ⟨[]⟩ := by
  have hd : sparqlConstraintDeactivated
      [⟨.namedNode "http://cn", shDeactivated, litBool true, "http://sg"⟩]
      (.namedNode "http://cn") "http://sg" = true := by
    simp [sparqlConstraintDeactivated, firstQuad, litBool, xsdBoolean,
      shDeactivated]
  refine ⟨hd, ?_, ?_⟩
  · exact c9_deactivated_zero_failures.2
      ⟨fun _ => .error "unreached", fun _ _ => .error "unreached",
       fun _ => .error "unreached"⟩
      [⟨.namedNode "http://cn", shDeactivated, litBool true, "http://sg"⟩]
      "http://sg" (.namedNode "http://cn") 1
      (Context.new (.namedNode "http://f") none none (.NodeShape 0))
      (fun _ => none) none hd
  · exact c9_deactivated_zero_failures.1 _ _

/-- Every triple minted by `build_rdf_list`'s cell loop carries a list
predicate. -/
theorem rdfListCells_benign :
    ∀ (items : List Term) (n : Nat) (tr : TripleT),
      tr ∈ rdfListCells items n → pathPred tr.pred = true
  | [], n, tr => by simp [rdfListCells]
  | x :: rest, n, tr => by
    intro htr
    simp only [rdfListCells, List.mem_cons] at htr
    rcases htr with rfl | rfl | htr
    · simp [pathPred]
    · simp [pathPred]
    · exact rdfListCells_benign rest (n + 1) tr htr

/-- Model of `build_rdf_list` only appends list-vocabulary triples. -/
theorem buildRdfList_adds (items : List Term) (g : List TripleT) (n : Nat) :
    ∃ adds, (buildRdfList items g n).2.1 = g ++ adds
      ∧ ∀ tr ∈ adds, pathPred tr.pred = true := by
  by_cases he : items.isEmpty
  · exact ⟨[], by simp [buildRdfList, he], by simp⟩
  · exact ⟨rdfListCells items n, by simp [buildRdfList, he],
      fun tr htr => rdfListCells_benign items n tr htr⟩

mutual

/-- Model of `path_to_rdf` only appends path- and list-vocabulary triples to the
graph. -/
theorem pathToRdf_adds :
    ∀ (p : Path) (g : List TripleT) (n : Nat),
      ∃ adds, (pathToRdf p g n).2.1 = g ++ adds
        ∧ ∀ tr ∈ adds, pathPred tr.pred = true
  | .Simple t, g, n => ⟨[], by simp [pathToRdf], by simp⟩
  | .Inverse inner, g, n => by
    obtain ⟨adds1, h1, hb1⟩ := pathToRdf_adds inner g (n + 1)
    refine ⟨adds1 ++ [⟨freshBNode n, shInversePath,
      (pathToRdf inner g (n + 1)).1⟩], ?_, ?_⟩
    · simp only [pathToRdf]
      rcases hx : pathToRdf inner g (n + 1) with ⟨it, g1, n1⟩
      rw [hx] at h1
      simp only at h1
      simp [h1]
    · intro tr htr
      rcases List.mem_append.mp htr with h | h
      · exact hb1 tr h
      · simp only [List.mem_singleton] at h
        subst h
        simp [pathPred]
  | .Sequence paths, g, n => by
    obtain ⟨adds1, h1, hb1⟩ := pathListToRdf_adds paths g n
    rcases hx : pathListToRdf paths g n with ⟨items, g1, n1⟩
    rw [hx] at h1
    simp only at h1
    obtain ⟨adds2, h2, hb2⟩ := buildRdfList_adds items g1 n1
    refine ⟨adds1 ++ adds2, ?_, ?_⟩
    · simp only [pathToRdf, hx]
      rw [h2, h1, List.append_assoc]
    · intro tr htr
      rcases List.mem_append.mp htr with h | h
      · exact hb1 tr h
      · exact hb2 tr h
  | .Alternative paths, g, n => by
    obtain ⟨adds1, h1, hb1⟩ := pathListToRdf_adds paths g (n + 1)
    rcases hx : pathListToRdf paths g (n + 1) with ⟨items, g1, n1⟩
    rw [hx] at h1
    simp only at h1
    obtain ⟨adds2, h2, hb2⟩ := buildRdfList_adds items g1 n1
    rcases hy : buildRdfList items g1 n1 with ⟨listHead, g2, n2⟩
    rw [hy] at h2
    simp only at h2
    refine ⟨adds1 ++ adds2 ++ [⟨freshBNode n, shAlternativePath, listHead⟩],
      ?_, ?_⟩
    · simp only [pathToRdf, hx, hy]
      rw [h2, h1]
      simp [List.append_assoc]
    · intro tr htr
      rcases List.mem_append.mp htr with h | h
      · rcases List.mem_append.mp h with h' | h'
        · exact hb1 tr h'
        · exact hb2 tr h'
      · simp only [List.mem_singleton] at h
        subst h
        simp [pathPred]
  | .ZeroOrMore inner, g, n => by
    obtain ⟨adds1, h1, hb1⟩ := pathToRdf_adds inner g (n + 1)
    refine ⟨adds1 ++ [⟨freshBNode n, shZeroOrMorePath,
      (pathToRdf inner g (n + 1)).1⟩], ?_, ?_⟩
    · simp only [pathToRdf]
      rcases hx : pathToRdf inner g (n + 1) with ⟨it, g1, n1⟩
      rw [hx] at h1
      simp only at h1
      simp [h1]
    · intro tr htr
      rcases List.mem_append.mp htr with h | h
      · exact hb1 tr h
      · simp only [List.mem_singleton] at h
        subst h
        simp [pathPred]
  | .OneOrMore inner, g, n => by
    obtain ⟨adds1, h1, hb1⟩ := pathToRdf_adds inner g (n + 1)
    refine ⟨adds1 ++ [⟨freshBNode n, shOneOrMorePath,
      (pathToRdf inner g (n + 1)).1⟩], ?_, ?_⟩
    · simp only [pathToRdf]
      rcases hx : pathToRdf inner g (n + 1) with ⟨it, g1, n1⟩
      rw [hx] at h1
      simp only at h1
      simp [h1]
    · intro tr htr
      rcases List.mem_append.mp htr with h | h
      · exact hb1 tr h
      · simp only [List.mem_singleton] at h
        subst h
        simp [pathPred]
  | .ZeroOrOne inner, g, n => by
    obtain ⟨adds1, h1, hb1⟩ := pathToRdf_adds inner g (n + 1)
    refine ⟨adds1 ++ [⟨freshBNode n, shZeroOrOnePath,
      (pathToRdf inner g (n + 1)).1⟩], ?_, ?_⟩
    · simp only [pathToRdf]
      rcases hx : pathToRdf inner g (n + 1) with ⟨it, g1, n1⟩
      rw [hx] at h1
      simp only at h1
      simp [h1]
    · intro tr htr
      rcases List.mem_append.mp htr with h | h
      · exact hb1 tr h
      · simp only [List.mem_singleton] at h
        subst h
        simp [pathPred]

/-- The list version of `pathToRdf_adds`. -/
theorem pathListToRdf_adds :
    ∀ (ps : List Path) (g : List TripleT) (n : Nat),
      ∃ adds, (pathListToRdf ps g n).2.1 = g ++ adds
        ∧ ∀ tr ∈ adds, pathPred tr.pred = true
  | [], g, n => ⟨[], by simp [pathListToRdf], by simp⟩
  | p :: ps, g, n => by
    obtain ⟨adds1, h1, hb1⟩ := pathToRdf_adds p g n
    rcases hx : pathToRdf p g n with ⟨t, g1, n1⟩
    rw [hx] at h1
    simp only at h1
    obtain ⟨adds2, h2, hb2⟩ := pathListToRdf_adds ps g1 n1
    rcases hy : pathListToRdf ps g1 n1 with ⟨ts, g2, n2⟩
    rw [hy] at h2
    simp only at h2
    refine ⟨adds1 ++ adds2, ?_, ?_⟩
    · simp only [pathListToRdf, hx, hy]
      rw [h2, h1, List.append_assoc]
    · intro tr htr
      rcases List.mem_append.mp htr with h | h
      · exact hb1 tr h
      · exact hb2 tr h

end

/-- One step of the trace loop only appends path-vocabulary triples. -/
theorem traceStep_adds (vctx : ValidationContextM) (acc : TraceAcc)
    (item : TraceItem) :
    ∃ adds, (traceStep vctx acc item).g = acc.g ++ adds
      ∧ ∀ tr ∈ adds, pathPred tr.pred = true := by
  cases item with
  | NodeShape id =>
    by_cases h : acc.sourceShapeTerm.isNone <;>
      exact ⟨[], by simp [traceStep, h], by simp⟩
  | Component id =>
    by_cases h : acc.sourceConstraintComponentTerm.isNone <;>
      exact ⟨[], by simp [traceStep, h], by simp⟩
  | PropertyShape id =>
    by_cases h : acc.sourceShapeTerm.isNone
    · cases hps : vctx.propShapeById id with
      | none => exact ⟨[], by simp [traceStep, h, hps], by simp⟩
      | some shape =>
        by_cases hrp : acc.resultPathTerm.isNone
        · obtain ⟨adds, ha, hb⟩ := pathToRdf_adds shape.path acc.g acc.n
          refine ⟨adds, ?_, hb⟩
          simp only [traceStep, h, hps, hrp, if_true]
          rcases hx : pathToRdf shape.path acc.g acc.n with ⟨pt, g', n'⟩
          rw [hx] at ha
          simpa using ha
        · exact ⟨[], by simp [traceStep, h, hps, hrp], by simp⟩
    · exact ⟨[], by simp [traceStep, h], by simp⟩

/-- Folding the trace loop only appends path-vocabulary triples. -/
theorem traceFoldAux_adds (vctx : ValidationContextM) :
    ∀ (items : List TraceItem) (acc : TraceAcc),
      ∃ adds, (items.foldl (traceStep vctx) acc).g = acc.g ++ adds
        ∧ ∀ tr ∈ adds, pathPred tr.pred = true := by
  intro items
  induction items with
  | nil => exact fun acc => ⟨[], by simp, by simp⟩
  | cons item rest ih =>
    intro acc
    obtain ⟨adds1, h1, hb1⟩ := traceStep_adds vctx acc item
    obtain ⟨adds2, h2, hb2⟩ := ih (traceStep vctx acc item)
    refine ⟨adds1 ++ adds2, ?_, ?_⟩
    · simp only [List.foldl_cons]
      rw [h2, h1, List.append_assoc]
    · intro tr htr
      rcases List.mem_append.mp htr with h | h
      exacts [hb1 tr h, hb2 tr h]

/-- The trace-extraction loop of `to_graph` only appends
path-vocabulary triples. -/
theorem traceFold_adds (vctx : ValidationContextM) (trace : List TraceItem)
    (g : List TripleT) (n : Nat) :
    ∃ adds, (traceFold vctx trace g n).g = g ++ adds
      ∧ ∀ tr ∈ adds, pathPred tr.pred = true := by
  simpa [traceFold] using
    traceFoldAux_adds vctx trace.reverse ⟨none, none, none, g, n⟩

/-- A path-vocabulary predicate is neither `rdf:type` nor
`sh:conforms`. -/
theorem pathPred_ne :
    ∀ t : Term, pathPred t = true → t ≠ rdfType ∧ t ≠ shConforms := by
  intro t h
  simp only [pathPred, Bool.or_eq_true, beq_iff_eq] at h
  rcases h with ((((((rfl | rfl) | rfl) | rfl) | rfl) | rfl) | rfl) <;>
    exact ⟨by decide, by decide⟩

/-- Path-vocabulary triples count neither as `sh:ValidationResult`
typings nor as `sh:conforms true` triples. -/
theorem countP_benign_zero (adds : List TripleT)
    (hb : ∀ tr ∈ adds, pathPred tr.pred = true) :
    adds.countP (fun tr => tr.pred == rdfType && tr.obj == shValidationResult) = 0
    ∧ adds.countP (fun tr => tr.pred == shConforms && tr.obj == litBool true) = 0 := by
  constructor <;>
  · rw [List.countP_eq_zero]
    intro tr htr
    have := pathPred_ne tr.pred (hb tr htr)
    simp [this.1, this.2]

/-- Emitting one validation result adds exactly one
`sh:ValidationResult` typing triple and no `sh:conforms` triple. -/
theorem emitResult_counts (vctx : ValidationContextM) (rn : Term)
    (ctx : Context) (msg : String) (g : List TripleT) (n : Nat) :
    countValidationResults (emitResult vctx rn ctx msg g n).1
      = countValidationResults g + 1
    ∧ (emitResult vctx rn ctx msg g n).1.countP
        (fun tr => tr.pred == shConforms && tr.obj == litBool true)
      = g.countP (fun tr => tr.pred == shConforms && tr.obj == litBool true) := by
  obtain ⟨tadds, ht, hbt⟩ := traceFold_adds vctx ctx.execution_trace
    (g ++ [⟨rn, shResult, freshBNode n⟩,
      ⟨freshBNode n, rdfType, shValidationResult⟩,
      ⟨freshBNode n, shFocusNode, ctx.focus_node⟩,
      ⟨freshBNode n, shResultMessage, simpleLit msg⟩]) (n + 1)
  have hz := countP_benign_zero tadds hbt
  simp only [emitResult]
  rcases hacc : traceFold vctx ctx.execution_trace
      (g ++ [⟨rn, shResult, freshBNode n⟩,
        ⟨freshBNode n, rdfType, shValidationResult⟩,
        ⟨freshBNode n, shFocusNode, ctx.focus_node⟩,
        ⟨freshBNode n, shResultMessage, simpleLit msg⟩]) (n + 1)
    with ⟨s1, s2, s3, gacc, nacc⟩
  rw [hacc] at ht
  simp only at ht
  subst ht
  rw [hacc]
  rcases s1 with _ | t1 <;> rcases s2 with _ | t2 <;> rcases s3 with _ | t3 <;>
  constructor <;>
    simp [countValidationResults, List.countP_append, List.countP_cons, hz.1,
      hz.2, rdfType, shValidationResult, shResult, shFocusNode,
      shResultMessage, shSourceShape, shResultPath, shResultSeverity,
      shSourceConstraintComponent, shConforms, shViolation, litBool,
      xsdBoolean, simpleLit, xsdString] <;>
    (intro a ha hp
     first
     | exact absurd hp ((pathPred_ne a.pred (hbt a ha)).1)
     | exact absurd hp ((pathPred_ne a.pred (hbt a ha)).2))

/-- The result loop of `to_graph` adds one `sh:ValidationResult` typing
per recorded failure and no `sh:conforms` triple. -/
theorem emitResults_counts (vctx : ValidationContextM) (rn : Term) :
    ∀ (results : List (Context × String)) (g : List TripleT) (n : Nat),
      countValidationResults (emitResults vctx rn results g n).1
        = countValidationResults g + results.length
      ∧ (emitResults vctx rn results g n).1.countP
          (fun tr => tr.pred == shConforms && tr.obj == litBool true)
        = g.countP (fun tr => tr.pred == shConforms && tr.obj == litBool true) := by
  intro results
  induction results with
  | nil => exact fun g n => ⟨by simp [emitResults], by simp [emitResults]⟩
  | cons r rest ih =>
    intro g n
    rcases r with ⟨ctx, msg⟩
    have hone := emitResult_counts vctx rn ctx msg g n
    rcases hx : emitResult vctx rn ctx msg g n with ⟨g1, n1⟩
    rw [hx] at hone
    simp only at hone
    have hrest := ih g1 n1
    constructor
    · simp only [emitResults, hx]
      rw [hrest.1, hone.1]
      simp [List.length_cons]
      omega
    · simp only [emitResults, hx]
      rw [hrest.2, hone.2]

/-- C2: `conforms()` is true iff the builder's failure list is empty,
and equivalently iff the graph of `to_graph()` contains a
`sh:conforms true` triple and zero `sh:ValidationResult` nodes — with
no dependence on any notion of severity (the builder records only
`(Context, String)` pairs). -/
theorem c2_conforms_iff_empty_and_graph (b : ValidationReportBuilder)
    (vctx : ValidationContextM) :
    (b.conforms = true ↔ b.results = [])
    ∧ (b.conforms = true ↔
        (hasConformsTrue (b.toGraph vctx) = true
          ∧ countValidationResults (b.toGraph vctx) = 0)) := by
  constructor
  · simp [ValidationReportBuilder.conforms, List.isEmpty_iff]
  · cases hb : b.results with
    | nil =>
      have hc : b.conforms = true := by
        simp [ValidationReportBuilder.conforms, hb]
      have hg : b.toGraph vctx
          = [⟨freshBNode 0, rdfType, shValidationReport⟩,
             ⟨freshBNode 0, shConforms, litBool true⟩] := by
        simp [ValidationReportBuilder.toGraph, hb]
      rw [hc, hg]
      simp only [true_iff]
      constructor
      · decide
      · decide
    | cons r rest =>
      have hc : b.conforms = false := by
        simp [ValidationReportBuilder.conforms, hb]
      have hg : b.toGraph vctx
          = (emitResults vctx (freshBNode 0) (r :: rest)
              [⟨freshBNode 0, rdfType, shValidationReport⟩,
               ⟨freshBNode 0, shConforms, litBool false⟩] 1).1 := by
        simp [ValidationReportBuilder.toGraph, hb]
      have hcounts := emitResults_counts vctx (freshBNode 0) (r :: rest)
        [⟨freshBNode 0, rdfType, shValidationReport⟩,
         ⟨freshBNode 0, shConforms, litBool false⟩] 1
      rw [hc, hg]
      constructor
      · intro hfalse
        cases hfalse
      · rintro ⟨-, hcount⟩
        rw [hcounts.1] at hcount
        simp [countValidationResults] at hcount

/-- C1: refuted on the code — `to_graph` emits
`sh:resultSeverity sh:Violation` for every recorded failure, with no
consultation of the severity declared on the source shape or validator
(the builder records only `(Context, String)` pairs).  Evaluated at the
repository's own test scenario (`custom_sparql_message_and_severity` in
`lib.rs`): a failure produced by a validator declaring
`sh:severity sh:Warning` is still reported with `sh:Violation`, while
the test asserts `sh:Warning`. -/
theorem c1_severity_hardcoded_violation :
    ((ValidationReportBuilder.toGraph
        ⟨[(⟨Term.namedNode "http://example.com/ns#Alice", none,
            some [Term.literal ⟨"3",
              "http://www.w3.org/2001/XMLSchema#integer", none⟩],
            SourceShape.PropertyShape 0,
            [TraceItem.NodeShape 0, TraceItem.Component 1]⟩,
           "Score must be at least 5 (got 3).")]⟩
        ⟨fun _ => some (Term.namedNode "http://example.com/ns#ScoreShape"),
         fun _ => none,
         fun _ => some (Term.namedNode
           "http://example.com/ns#MinScoreConstraintComponent"),
         fun _ => none⟩).filter
        (fun tr => tr.pred == shResultSeverity)).map (fun tr => tr.obj)
      = [shViolation]
    ∧ shViolation ≠ shWarning := by
  constructor
  · rfl
  · decide

end ShaclRs
